import Mathlib

/-!
# Atom-Swap `swapservice` keeper: state-access layer

A shallow embedding of `x/swapservice/keeper.go` and `x/swapservice/types/types.go`.

* Go strings are Lean `String`s; a Go slice is a `List`.
* The key-value store handed out by `ctx.KVStore(k.storeKey)` is a finite map from keys to
  stored byte values, here a function `String → Option Bytes`, used only through `Has`,
  `Get` and `Set`.
* The wire codec (`k.cdc`) and `strings.ToUpper` are library capabilities the keeper
  consumes; they are fields of `Keeper`.  `MustUnmarshalBinaryBare` panics on bytes it
  cannot decode, so decoding returns an `Option` and every keeper method that decodes
  returns an `Option`, `none` standing for the panic.
* A Go `[]byte` that may be nil is an `Option Bytes`, `none` being the nil slice.
  `MustMarshalBinaryBare` returns the nil slice for a record with no non-zero field, and
  `store.Set` panics on a nil value, so every keeper method that writes returns an
  `Option` as well.
* Every method threads the store explicitly: it returns its result together with the
  store it leaves behind.
-/

namespace SwapService

/-! ## Records (`types/types.go`) -/

/-- The Go struct `PoolStruct`: all the metadata of a pool. -/
structure PoolStruct where
  BalanceAtom : String
  BalanceToken : String
  Ticker : String
  TokenName : String
deriving DecidableEq, Repr

/-- The Go function `NewPoolStruct`: the zero value `PoolStruct{}`. -/
def NewPoolStruct : PoolStruct :=
  { BalanceAtom := "", BalanceToken := "", Ticker := "", TokenName := "" }

/-- The Go struct `Holding`. -/
structure Holding where
  Ticker : String
  Amount : String
deriving DecidableEq, Repr

/-- The Go struct `AccStruct`: the balances of an account. -/
structure AccStruct where
  Name : String
  Holdings : List Holding
deriving DecidableEq, Repr

/-- The Go function `NewAccStruct`: the zero value `AccStruct{}`. -/
def NewAccStruct : AccStruct :=
  { Name := "", Holdings := [] }

/-- The Go struct `AccStake`. -/
structure AccStake where
  Name : String
  Atom : String
  Token : String
deriving DecidableEq, Repr

/-- The Go struct `StakeStruct`: the coins staked towards a pool. -/
structure StakeStruct where
  Ticker : String
  Stakes : List AccStake
deriving DecidableEq, Repr

/-- The Go function `NewStakeStruct`: empty ticker, `make([]AccStake, 0)`. -/
def NewStakeStruct : StakeStruct :=
  { Ticker := "", Stakes := [] }

/-! ## Library capabilities -/

/-- The Go function `strings.HasPrefix`. -/
def HasPrefix (s pre : String) : Bool :=
  pre.data.isPrefixOf s.data

/-- The scan of `strings.Split` for a non-empty separator `sep`: `cur` is the piece being
read, in reverse, and `skip` counts the characters of a matched separator still to pass
over.  Occurrences are taken left to right without overlap, and the text after the last
one is the last piece. -/
def splitAux (sep : List Char) : List Char → Nat → List Char → List String
  | [], _, cur => [String.mk cur.reverse]
  | _ :: rest, skip + 1, cur => splitAux sep rest skip cur
  | c :: rest, 0, cur =>
    if sep.isPrefixOf (c :: rest) then
      String.mk cur.reverse :: splitAux sep rest (sep.length - 1) []
    else
      splitAux sep rest 0 (c :: cur)

/-- The Go function `strings.Split`: all the pieces of `s` between occurrences of `sep`;
with an empty `sep`, the characters of `s` one by one. -/
def Split (s sep : String) : List String :=
  if sep = "" then s.data.map (fun c => String.mk [c])
  else splitAux sep.data s.data 0 []

/-- The wire codec `*codec.Codec`, one encode/decode pair per record type.
`MustMarshalBinaryBare` does not fail on these records, and answers `none` where it
returns the nil slice; `MustUnmarshalBinaryBare` answers `none` where it panics. -/
structure Codec (Bytes : Type) where
  marshalAcc : AccStruct → Option Bytes
  unmarshalAcc : Bytes → Option AccStruct
  marshalStake : StakeStruct → Option Bytes
  unmarshalStake : Bytes → Option StakeStruct
  marshalPool : PoolStruct → Option Bytes
  unmarshalPool : Bytes → Option PoolStruct

/-- The Go struct `Keeper`.  `coinKeeper` and `storeKey` play no part in the methods
embedded here; `ToUpper` is `strings.ToUpper`. -/
structure Keeper (Bytes : Type) where
  cdc : Codec Bytes
  ToUpper : String → String

/-- The store `ctx.KVStore(k.storeKey)`. -/
abbrev KVStore (Bytes : Type) := String → Option Bytes

namespace KVStore

variable {Bytes : Type}

/-- The store with no key. -/
def empty : KVStore Bytes := fun _ => none

/-- The store method `Has`. -/
def Has (store : KVStore Bytes) (key : String) : Bool :=
  (store key).isSome

/-- The store method `Get`. -/
def Get (store : KVStore Bytes) (key : String) : Option Bytes :=
  store key

/-- The store with `key` bound to the non-nil `value`, every other key as before. -/
def insert (store : KVStore Bytes) (key : String) (value : Bytes) : KVStore Bytes :=
  fun key' => if key' = key then some value else store key'

/-- The store method `Set`: it panics on a nil value and binds the key otherwise. -/
def Set (store : KVStore Bytes) (key : String) (value : Option Bytes) :
    Option (KVStore Bytes) :=
  match value with
  | none => none
  | some bz => some (store.insert key bz)

end KVStore

/-! ## Key namespace -/

/-- The three record kinds sharing the store. -/
inductive Kind where
  | account
  | stake
  | pool
deriving DecidableEq, Repr

/-- The fixed key prefix of a kind, as written in the keeper's methods. -/
def Kind.tag : Kind → String
  | .account => "acc-"
  | .stake => "stake-"
  | .pool => "pool-"

/-- The rule inlined at the head of the keeper's methods:
`if !strings.HasPrefix(id, p) { id = fmt.Sprintf(p + "%s", id) }`. -/
def normalize (id : String) (kind : Kind) : String :=
  if !HasPrefix id kind.tag then kind.tag ++ id else id

/-! ## Keeper methods (`keeper.go`) -/

section Methods

variable {Bytes : Type}

/-- The Go method `Keeper.GetAccStruct`. -/
def GetAccStruct (k : Keeper Bytes) (ctx : KVStore Bytes) (accID : String) :
    Option (AccStruct × KVStore Bytes) :=
  let accID := normalize accID .account
  let store := ctx
  if !store.Has accID then
    some (NewAccStruct, store)
  else
    match store.Get accID with
    | none => none
    | some bz =>
      match k.cdc.unmarshalAcc bz with
      | none => none
      | some accstruct => some (accstruct, store)

/-- The Go method `Keeper.SetAccStruct`; it panics in `store.Set` when the encoding is the
nil slice. -/
def SetAccStruct (k : Keeper Bytes) (ctx : KVStore Bytes) (accID : String)
    (accstruct : AccStruct) : Option (KVStore Bytes) :=
  let accID := normalize accID .account
  let store := ctx
  store.Set accID (k.cdc.marshalAcc accstruct)

/-- The loop of `Keeper.SetAccData`: the first holding whose ticker is `ticker` gets
`amount`; the answer carries the flag `found`. -/
def setAmount (ticker amount : String) : List Holding → List Holding × Bool
  | [] => ([], false)
  | record :: rest =>
    if record.Ticker = ticker then
      ({ record with Amount := amount } :: rest, true)
    else
      let (rest', found) := setAmount ticker amount rest
      (record :: rest', found)

/-- The Go method `Keeper.SetAccData`; the parameter `name` is not used by the code. -/
def SetAccData (k : Keeper Bytes) (ctx : KVStore Bytes) (accID : String)
    (name ticker amount : String) : Option (KVStore Bytes) :=
  let _ := name
  let accID := normalize accID .account
  match GetAccStruct k ctx accID with
  | none => none
  | some (accstruct, ctx) =>
    let ticker := k.ToUpper ticker
    let (holdings, found) := setAmount ticker amount accstruct.Holdings
    let accstruct := { accstruct with Holdings := holdings }
    let accstruct :=
      if !found then
        let record : Holding := { Ticker := ticker, Amount := amount }
        { accstruct with Holdings := accstruct.Holdings ++ [record] }
      else accstruct
    SetAccStruct k ctx accID accstruct

/-- The loop of `Keeper.GetAccData`: the amount of the first holding whose ticker is
`ticker`, or `""`. -/
def findAmount (ticker : String) : List Holding → String
  | [] => ""
  | record :: rest =>
    if record.Ticker = ticker then record.Amount else findAmount ticker rest

/-- The Go method `Keeper.GetAccData`. -/
def GetAccData (k : Keeper Bytes) (ctx : KVStore Bytes) (accID ticker : String) :
    Option (String × KVStore Bytes) :=
  let accID := normalize accID .account
  match GetAccStruct k ctx accID with
  | none => none
  | some (accstruct, ctx) =>
    let ticker := k.ToUpper ticker
    some (findAmount ticker accstruct.Holdings, ctx)

/-- The Go method `Keeper.GetStakeStruct`. -/
def GetStakeStruct (k : Keeper Bytes) (ctx : KVStore Bytes) (stakeID : String) :
    Option (StakeStruct × KVStore Bytes) :=
  let stakeID := normalize stakeID .stake
  let store := ctx
  if !store.Has stakeID then
    some (NewStakeStruct, store)
  else
    match store.Get stakeID with
    | none => none
    | some bz =>
      match k.cdc.unmarshalStake bz with
      | none => none
      | some stakestruct => some (stakestruct, store)

/-- The Go method `Keeper.SetStakeStruct`: the key is `stakeID` as given; it panics in
`store.Set` when the encoding is the nil slice. -/
def SetStakeStruct (k : Keeper Bytes) (ctx : KVStore Bytes) (stakeID : String)
    (stakestruct : StakeStruct) : Option (KVStore Bytes) :=
  let store := ctx
  store.Set stakeID (k.cdc.marshalStake stakestruct)

/-- The Go method `Keeper.GetPoolStruct`. -/
def GetPoolStruct (k : Keeper Bytes) (ctx : KVStore Bytes) (poolID : String) :
    Option (PoolStruct × KVStore Bytes) :=
  let poolID := normalize poolID .pool
  let store := ctx
  if !store.Has poolID then
    some (NewPoolStruct, store)
  else
    match store.Get poolID with
    | none => none
    | some bz =>
      match k.cdc.unmarshalPool bz with
      | none => none
      | some poolstruct =>
        let poolstruct :=
          if poolstruct.BalanceAtom = "" then { poolstruct with BalanceAtom := "0" }
          else poolstruct
        let poolstruct :=
          if poolstruct.BalanceToken = "" then { poolstruct with BalanceToken := "0" }
          else poolstruct
        some (poolstruct, store)

/-- The Go method `Keeper.SetPoolStruct`: the key is `poolID` as given; it panics in
`store.Set` when the encoding is the nil slice. -/
def SetPoolStruct (k : Keeper Bytes) (ctx : KVStore Bytes) (poolID : String)
    (poolstruct : PoolStruct) : Option (KVStore Bytes) :=
  let store := ctx
  store.Set poolID (k.cdc.marshalPool poolstruct)

/-- The Go method `Keeper.GetPoolData`. -/
def GetPoolData (k : Keeper Bytes) (ctx : KVStore Bytes) (poolID ticker : String) :
    Option ((String × String) × KVStore Bytes) :=
  match GetPoolStruct k ctx poolID with
  | none => none
  | some (poolstruct, ctx) =>
    if k.ToUpper ticker = "ATOM" then
      some ((poolstruct.BalanceAtom, poolstruct.BalanceToken), ctx)
    else
      some ((poolstruct.BalanceToken, poolstruct.BalanceAtom), ctx)

/-- The Go method `Keeper.SetPoolData`. -/
def SetPoolData (k : Keeper Bytes) (ctx : KVStore Bytes) (poolID : String)
    (tokenName ticker balanceAtom balanceToken : String) : Option (KVStore Bytes) :=
  match GetPoolStruct k ctx poolID with
  | none => none
  | some (poolstruct, ctx) =>
    let poolstruct := { poolstruct with TokenName := tokenName }
    let poolstruct := { poolstruct with Ticker := k.ToUpper ticker }
    let poolstruct := { poolstruct with BalanceAtom := balanceAtom }
    let poolstruct := { poolstruct with BalanceToken := balanceToken }
    SetPoolStruct k ctx poolID poolstruct

/-- The loop of `Keeper.GetStakeData`: the first position whose name is `name`, if any. -/
def findStake (name : String) : List AccStake → Option AccStake
  | [] => none
  | record :: rest =>
    if record.Name = name then some record else findStake name rest

/-- The Go method `Keeper.GetStakeData`. -/
def GetStakeData (k : Keeper Bytes) (ctx : KVStore Bytes) (stakeID name : String) :
    Option (AccStake × KVStore Bytes) :=
  let stakeID := normalize stakeID .stake
  match GetStakeStruct k ctx stakeID with
  | none => none
  | some (stakestruct, ctx) =>
    match findStake name stakestruct.Stakes with
    | some record => some (record, ctx)
    | none => some ({ Name := name, Atom := "0", Token := "0" }, ctx)

/-- The loop of `Keeper.SetStakeData`: the first position whose name is `name` gets `atom`
and `token`; the answer carries the flag `found`. -/
def setStake (name atom token : String) : List AccStake → List AccStake × Bool
  | [] => ([], false)
  | record :: rest =>
    if record.Name = name then
      ({ record with Atom := atom, Token := token } :: rest, true)
    else
      let (rest', found) := setStake name atom token rest
      (record :: rest', found)

/-- The Go method `Keeper.SetStakeData`.  `parts[1]` panics when `parts` has fewer than
two elements; the two `log.Printf` calls write to the process log only. -/
def SetStakeData (k : Keeper Bytes) (ctx : KVStore Bytes) (stakeID : String)
    (name atom token : String) : Option (KVStore Bytes) :=
  let parts := Split stakeID "-"
  match GetStakeStruct k ctx stakeID with
  | none => none
  | some (stakestruct, ctx) =>
    match parts[1]? with
    | none => none
    | some ticker =>
      let stakestruct := { stakestruct with Ticker := ticker }
      let (stakes, found) := setStake name atom token stakestruct.Stakes
      let stakestruct := { stakestruct with Stakes := stakes }
      let stakestruct :=
        if !found then
          let record : AccStake := { Name := name, Atom := atom, Token := token }
          { stakestruct with Stakes := stakestruct.Stakes ++ [record] }
        else stakestruct
      SetStakeStruct k ctx stakeID stakestruct

/-- The Go method `Keeper.SetBalances`. -/
def SetBalances (k : Keeper Bytes) (ctx : KVStore Bytes) (poolID atom token : String) :
    Option (KVStore Bytes) :=
  match GetPoolStruct k ctx poolID with
  | none => none
  | some (poolstruct, ctx) =>
    let poolstruct := { poolstruct with BalanceAtom := atom }
    let poolstruct := { poolstruct with BalanceToken := token }
    SetPoolStruct k ctx poolID poolstruct

end Methods

/-! ## A concrete keeper for evaluation -/

/-- Stored values of the concrete keeper: an encoded record of one of the three types. -/
inductive Wire where
  | acc (a : AccStruct)
  | stake (s : StakeStruct)
  | pool (p : PoolStruct)
deriving DecidableEq, Repr

/-- A codec over `Wire`: a record with no non-zero field encodes to the nil slice, and
decoding a value of another record type fails. -/
def wireCodec : Codec Wire where
  marshalAcc := fun a => if a = NewAccStruct then none else some (.acc a)
  unmarshalAcc := fun bz => match bz with
    | .acc a => some a
    | _ => none
  marshalStake := fun s => if s = NewStakeStruct then none else some (.stake s)
  unmarshalStake := fun bz => match bz with
    | .stake s => some s
    | _ => none
  marshalPool := fun p => if p = NewPoolStruct then none else some (.pool p)
  unmarshalPool := fun bz => match bz with
    | .pool p => some p
    | _ => none

/-- Upper-casing of the letters `a` to `z`, on which `strings.ToUpper` agrees. -/
def asciiUpper (s : String) : String :=
  String.mk (s.data.map Char.toUpper)

/-- The keeper used for evaluation at concrete inputs. -/
def wireKeeper : Keeper Wire where
  cdc := wireCodec
  ToUpper := asciiUpper

/-! ## Reference upsert and account operations -/

/-- The list upsert of the specification, in its words: when some holding has ticker `T`,
the amount of the first such holding is replaced by `a`, in place; otherwise the holding
`{ticker: T, amount: a}` is appended. -/
def upsertHolding (T a : String) (H : List Holding) : List Holding :=
  if H.any (fun h => decide (h.Ticker = T)) then
    H.modify (fun h => { h with Amount := a }) (H.findIdx (fun h => decide (h.Ticker = T)))
  else
    H ++ [{ Ticker := T, Amount := a }]

/-- An account operation: a call of `SetAccStruct` or of `SetAccData`. -/
inductive AccOp where
  | setRecord (accID : String) (accstruct : AccStruct)
  | upsert (accID name ticker amount : String)
deriving DecidableEq, Repr

section AccOps

variable {Bytes : Type}

/-- One account operation on a store. -/
def AccOp.run (k : Keeper Bytes) (ctx : KVStore Bytes) : AccOp → Option (KVStore Bytes)
  | .setRecord accID accstruct => SetAccStruct k ctx accID accstruct
  | .upsert accID name ticker amount => SetAccData k ctx accID name ticker amount

/-- A sequence of account operations, first to last. -/
def runAccOps (k : Keeper Bytes) (ctx : KVStore Bytes) : List AccOp → Option (KVStore Bytes)
  | [] => some ctx
  | op :: ops =>
    match op.run k ctx with
    | none => none
    | some ctx' => runAccOps k ctx' ops

/-- At most one holding per ticker, tickers compared by their uppercase forms. -/
def OnePerTicker (k : Keeper Bytes) (accstruct : AccStruct) : Prop :=
  (accstruct.Holdings.map (fun h => k.ToUpper h.Ticker)).Nodup

instance (k : Keeper Bytes) (accstruct : AccStruct) : Decidable (OnePerTicker k accstruct) :=
  inferInstanceAs (Decidable (List.Nodup _))

/-- A record whose tickers are in uppercase form and pairwise distinct. -/
def Canonical (k : Keeper Bytes) (accstruct : AccStruct) : Prop :=
  (∀ h ∈ accstruct.Holdings, k.ToUpper h.Ticker = h.Ticker)
    ∧ (accstruct.Holdings.map (fun h => h.Ticker)).Nodup

instance (k : Keeper Bytes) (accstruct : AccStruct) : Decidable (Canonical k accstruct) :=
  inferInstanceAs (Decidable (_ ∧ _))

/-- An operation that writes a whole record writes a canonical one; `SetAccData` is
unconstrained. -/
def AccOp.Canonical (k : Keeper Bytes) : AccOp → Prop
  | .setRecord _ accstruct => SwapService.Canonical k accstruct
  | .upsert _ _ _ _ => True

instance (k : Keeper Bytes) (op : AccOp) : Decidable (op.Canonical k) :=
  match op with
  | .setRecord _ accstruct => inferInstanceAs (Decidable (SwapService.Canonical k accstruct))
  | .upsert _ _ _ _ => inferInstanceAs (Decidable True)

/-- Every operation of the sequence is canonical. -/
def CanonicalOps (k : Keeper Bytes) (ops : List AccOp) : Prop :=
  ∀ op ∈ ops, op.Canonical k

instance (k : Keeper Bytes) (ops : List AccOp) : Decidable (CanonicalOps k ops) :=
  inferInstanceAs (Decidable (∀ op ∈ ops, op.Canonical k))

end AccOps

/-- Every key of the store is absent or holds the encoding of a canonical account record:
the shape of a store that only account operations have written. -/
def AccountStore {Bytes : Type} (k : Keeper Bytes) (ctx : KVStore Bytes) : Prop :=
  ∀ key, ctx key = none ∨ ∃ accstruct bz, ctx key = some bz
    ∧ k.cdc.marshalAcc accstruct = some bz ∧ Canonical k accstruct

/-! ## What the keeper needs of the codec -/

section CodecContracts

variable {Bytes : Type}

/-- Account records: bytes decode to the record they encode, and only the record with
no non-zero field may encode to the nil slice. -/
def AccCodec (k : Keeper Bytes) : Prop :=
  (∀ r bz, k.cdc.marshalAcc r = some bz → k.cdc.unmarshalAcc bz = some r)
    ∧ ∀ r, r ≠ NewAccStruct → k.cdc.marshalAcc r ≠ none

/-- Stake records: bytes decode to the record they encode, and only the record with no
non-zero field may encode to the nil slice. -/
def StakeCodec (k : Keeper Bytes) : Prop :=
  (∀ r bz, k.cdc.marshalStake r = some bz → k.cdc.unmarshalStake bz = some r)
    ∧ ∀ r, r ≠ NewStakeStruct → k.cdc.marshalStake r ≠ none

/-- Pool records: bytes decode to the record they encode, and only the record with no
non-zero field may encode to the nil slice. -/
def PoolCodec (k : Keeper Bytes) : Prop :=
  (∀ r bz, k.cdc.marshalPool r = some bz → k.cdc.unmarshalPool bz = some r)
    ∧ ∀ r, r ≠ NewPoolStruct → k.cdc.marshalPool r ≠ none

end CodecContracts

/-- The stakes `SetStakeData` stores, from the stakes it loaded: the outcome of its loop,
followed by the new position when the loop found none. -/
def storedStakes (name atom token : String) (stakes : List AccStake) : List AccStake :=
  if !(setStake name atom token stakes).2 then
    (setStake name atom token stakes).1 ++ [{ Name := name, Atom := atom, Token := token }]
  else
    (setStake name atom token stakes).1

section Lemmas
variable {Bytes : Type}

theorem HasPrefix_append (pre s : String) : HasPrefix (pre ++ s) pre = true := by
  simp [HasPrefix, String.data_append]

theorem normalize_hasPrefix (id : String) (kind : Kind) :
    HasPrefix (normalize id kind) kind.tag = true := by
  unfold normalize
  by_cases h : HasPrefix id kind.tag = true
  · simp [h]
  · simp [h, HasPrefix_append]

theorem normalize_of_hasPrefix {id : String} {kind : Kind}
    (h : HasPrefix id kind.tag = true) : normalize id kind = id := by
  simp [normalize, h]

theorem normalize_idem (id : String) (kind : Kind) :
    normalize (normalize id kind) kind = normalize id kind :=
  normalize_of_hasPrefix (normalize_hasPrefix id kind)

theorem KVStore.insert_same (store : KVStore Bytes) (key : String) (value : Bytes) :
    store.insert key value key = some value := by
  simp [KVStore.insert]

theorem KVStore.insert_other (store : KVStore Bytes) (key : String) (value : Bytes)
    {key' : String} (h : key' ≠ key) : store.insert key value key' = store key' := by
  simp [KVStore.insert, h]

theorem GetAccStruct_absent (k : Keeper Bytes) (ctx : KVStore Bytes) (accID : String)
    (h : ctx (normalize accID .account) = none) :
    GetAccStruct k ctx accID = some (NewAccStruct, ctx) := by
  simp [GetAccStruct, KVStore.Has, h]

theorem GetAccStruct_present (k : Keeper Bytes) (ctx : KVStore Bytes) (accID : String)
    (bz : Bytes) (h : ctx (normalize accID .account) = some bz) :
    GetAccStruct k ctx accID = (k.cdc.unmarshalAcc bz).map (fun a => (a, ctx)) := by
  simp only [GetAccStruct, KVStore.Has, KVStore.Get, h]
  cases k.cdc.unmarshalAcc bz <;> simp

theorem GetStakeStruct_absent (k : Keeper Bytes) (ctx : KVStore Bytes) (stakeID : String)
    (h : ctx (normalize stakeID .stake) = none) :
    GetStakeStruct k ctx stakeID = some (NewStakeStruct, ctx) := by
  simp [GetStakeStruct, KVStore.Has, h]

theorem GetPoolStruct_absent (k : Keeper Bytes) (ctx : KVStore Bytes) (poolID : String)
    (h : ctx (normalize poolID .pool) = none) :
    GetPoolStruct k ctx poolID = some (NewPoolStruct, ctx) := by
  simp [GetPoolStruct, KVStore.Has, h]

theorem SetAccStruct_of_some (k : Keeper Bytes) (ctx : KVStore Bytes) (accID : String)
    (accstruct : AccStruct) (bz : Bytes) (h : k.cdc.marshalAcc accstruct = some bz) :
    SetAccStruct k ctx accID accstruct
      = some (ctx.insert (normalize accID .account) bz) := by
  simp [SetAccStruct, KVStore.Set, h]

theorem SetAccStruct_of_none (k : Keeper Bytes) (ctx : KVStore Bytes) (accID : String)
    (accstruct : AccStruct) (h : k.cdc.marshalAcc accstruct = none) :
    SetAccStruct k ctx accID accstruct = none := by
  simp [SetAccStruct, KVStore.Set, h]

theorem SetStakeStruct_of_some (k : Keeper Bytes) (ctx : KVStore Bytes) (stakeID : String)
    (stakestruct : StakeStruct) (bz : Bytes) (h : k.cdc.marshalStake stakestruct = some bz) :
    SetStakeStruct k ctx stakeID stakestruct = some (ctx.insert stakeID bz) := by
  simp [SetStakeStruct, KVStore.Set, h]

theorem SetPoolStruct_of_some (k : Keeper Bytes) (ctx : KVStore Bytes) (poolID : String)
    (poolstruct : PoolStruct) (bz : Bytes) (h : k.cdc.marshalPool poolstruct = some bz) :
    SetPoolStruct k ctx poolID poolstruct = some (ctx.insert poolID bz) := by
  simp [SetPoolStruct, KVStore.Set, h]

theorem SetPoolStruct_of_none (k : Keeper Bytes) (ctx : KVStore Bytes) (poolID : String)
    (poolstruct : PoolStruct) (h : k.cdc.marshalPool poolstruct = none) :
    SetPoolStruct k ctx poolID poolstruct = none := by
  simp [SetPoolStruct, KVStore.Set, h]

/-- The part of the frame property that holds: when `SetAccStruct` returns, the canonical
account key holds the encoding and every other key is as before. -/
theorem SetAccStruct_frame (k : Keeper Bytes) (ctx ctx' : KVStore Bytes) (accID : String)
    (accstruct : AccStruct) (h : SetAccStruct k ctx accID accstruct = some ctx') :
    ctx' (normalize accID .account) = k.cdc.marshalAcc accstruct
      ∧ ∀ key, key ≠ normalize accID .account → ctx' key = ctx key := by
  cases hm : k.cdc.marshalAcc accstruct with
  | none => rw [SetAccStruct_of_none k ctx accID accstruct hm] at h; simp at h
  | some bz =>
    rw [SetAccStruct_of_some k ctx accID accstruct bz hm] at h
    simp only [Option.some.injEq] at h
    subst h
    exact ⟨KVStore.insert_same _ _ _, fun key hkey => KVStore.insert_other _ _ _ hkey⟩

/-- Reading an account key that holds bytes decoding to a record gives that record. -/
theorem GetAccStruct_insert (k : Keeper Bytes) (ctx : KVStore Bytes)
    (accID : String) (accstruct : AccStruct) (bz : Bytes)
    (hdec : k.cdc.unmarshalAcc bz = some accstruct) :
    GetAccStruct k (ctx.insert (normalize accID .account) bz) accID
      = some (accstruct, ctx.insert (normalize accID .account) bz) := by
  rw [GetAccStruct_present k _ accID bz (KVStore.insert_same _ _ _), hdec]
  rfl

/-- Writing a record the codec encodes to non-nil bytes and reading it back. -/
theorem GetAccStruct_SetAccStruct (k : Keeper Bytes) (ctx : KVStore Bytes)
    (accID : String) (accstruct : AccStruct) (bz : Bytes)
    (henc : k.cdc.marshalAcc accstruct = some bz)
    (hdec : k.cdc.unmarshalAcc bz = some accstruct) :
    ∃ ctx', SetAccStruct k ctx accID accstruct = some ctx'
      ∧ GetAccStruct k ctx' accID = some (accstruct, ctx') :=
  ⟨_, SetAccStruct_of_some k ctx accID accstruct bz henc,
    GetAccStruct_insert k ctx accID accstruct bz hdec⟩

end Lemmas

/-! ## The pool paths on ids that carry the prefix -/

section PoolLemmas
variable {Bytes : Type}

/-- The balance defaults `GetPoolStruct` applies to a decoded record. -/
theorem GetPoolStruct_present (k : Keeper Bytes) (ctx : KVStore Bytes) (poolID : String)
    (bz : Bytes) (R : PoolStruct) (h : ctx (normalize poolID .pool) = some bz)
    (hdec : k.cdc.unmarshalPool bz = some R) :
    GetPoolStruct k ctx poolID
      = some ({ BalanceAtom := if R.BalanceAtom = "" then "0" else R.BalanceAtom,
                BalanceToken := if R.BalanceToken = "" then "0" else R.BalanceToken,
                Ticker := R.Ticker, TokenName := R.TokenName }, ctx) := by
  simp only [GetPoolStruct, KVStore.Has, KVStore.Get, h, hdec]
  by_cases ha : R.BalanceAtom = "" <;> by_cases ht : R.BalanceToken = "" <;> simp [ha, ht]

/-- With an id that already starts with `"pool-"`, reading the key that holds the bytes of
`R` gives `R` with the balance defaults. -/
theorem GetPoolStruct_insert_prefixed (k : Keeper Bytes) (ctx : KVStore Bytes)
    (poolID : String) (R : PoolStruct) (bz : Bytes)
    (hid : HasPrefix poolID "pool-" = true)
    (hdec : k.cdc.unmarshalPool bz = some R) :
    GetPoolStruct k (ctx.insert poolID bz) poolID
      = some ({ BalanceAtom := if R.BalanceAtom = "" then "0" else R.BalanceAtom,
                BalanceToken := if R.BalanceToken = "" then "0" else R.BalanceToken,
                Ticker := R.Ticker, TokenName := R.TokenName },
          ctx.insert poolID bz) := by
  have hn : normalize poolID .pool = poolID := normalize_of_hasPrefix hid
  refine GetPoolStruct_present k _ poolID bz R ?_ hdec
  rw [hn]
  exact KVStore.insert_same _ _ _

/-- With an id that already starts with `"pool-"` the pool round trip holds for a record
the codec encodes to non-nil bytes. -/
theorem GetPoolStruct_SetPoolStruct_prefixed (k : Keeper Bytes) (ctx : KVStore Bytes)
    (poolID : String) (R : PoolStruct) (hid : HasPrefix poolID "pool-" = true)
    (hcodec : PoolCodec k) (hnz : R ≠ NewPoolStruct) :
    ∃ ctx', SetPoolStruct k ctx poolID R = some ctx'
      ∧ GetPoolStruct k ctx' poolID
        = some ({ BalanceAtom := if R.BalanceAtom = "" then "0" else R.BalanceAtom,
                  BalanceToken := if R.BalanceToken = "" then "0" else R.BalanceToken,
                  Ticker := R.Ticker, TokenName := R.TokenName }, ctx') := by
  cases hm : k.cdc.marshalPool R with
  | none => exact absurd hm (hcodec.2 R hnz)
  | some bz =>
    exact ⟨_, SetPoolStruct_of_some k ctx poolID R bz hm,
      GetPoolStruct_insert_prefixed k ctx poolID R bz hid (hcodec.1 R bz hm)⟩

end PoolLemmas

/-! ## Pool write path and the canonical key (C1, C2, C4) -/

/-- C1, at the spec's own input: in the empty store,
`SetPoolData("p1", "Token", "TKN", "100", "50")` followed by `GetPoolData("p1", "atom")`
returns `("", "")`, not `("100", "50")`, and `GetPoolData("p1", "tkn")` returns `("", "")`,
not `("50", "100")`: `SetPoolStruct` stored the record under the key `"p1"` while
`GetPoolStruct` reads the key `"pool-p1"`. -/
theorem C1_paired_balances_unprefixed_id :
    ((SetPoolData wireKeeper KVStore.empty "p1" "Token" "TKN" "100" "50").bind
        fun ctx => GetPoolData wireKeeper ctx "p1" "atom").map Prod.fst = some ("", "")
    ∧ ((SetPoolData wireKeeper KVStore.empty "p1" "Token" "TKN" "100" "50").bind
        fun ctx => GetPoolData wireKeeper ctx "p1" "tkn").map Prod.fst = some ("", "")
    ∧ (SetPoolData wireKeeper KVStore.empty "p1" "Token" "TKN" "100" "50").map
        (fun ctx => (ctx "p1", ctx "pool-p1"))
        = some (some (Wire.pool ⟨"100", "50", "TKN", "Token"⟩), none) := by
  decide

/-- C2, at a concrete input: `SetPoolStruct` and `SetStakeStruct` called with the ids
`"p1"` and `"s1"` on the empty store return, leave the canonical keys
`normalize "p1" pool` and `normalize "s1" stake` without a value and put the encoding
under the raw ids, which are other keys. -/
theorem C2_set_struct_writes_raw_key :
    normalize "p1" .pool = "pool-p1"
    ∧ (SetPoolStruct wireKeeper KVStore.empty "p1" ⟨"100", "50", "TKN", "Token"⟩).map
        (fun ctx => (ctx (normalize "p1" .pool), ctx "p1"))
        = some (none, wireKeeper.cdc.marshalPool ⟨"100", "50", "TKN", "Token"⟩)
    ∧ wireKeeper.cdc.marshalPool ⟨"100", "50", "TKN", "Token"⟩
        = some (Wire.pool ⟨"100", "50", "TKN", "Token"⟩)
    ∧ normalize "s1" .stake = "stake-s1"
    ∧ (SetStakeStruct wireKeeper KVStore.empty "s1" ⟨"S1", [⟨"alice", "5", "10"⟩]⟩).map
        (fun ctx => (ctx (normalize "s1" .stake), ctx "s1"))
        = some (none, wireKeeper.cdc.marshalStake ⟨"S1", [⟨"alice", "5", "10"⟩]⟩)
    ∧ wireKeeper.cdc.marshalStake ⟨"S1", [⟨"alice", "5", "10"⟩]⟩
        = some (Wire.stake ⟨"S1", [⟨"alice", "5", "10"⟩]⟩) := by
  decide

/-! ## Account round trip (C3) -/

/-- C3 as stated fails: the record `AccStruct{}` has no non-zero field, its encoding is
the nil slice, and `SetAccStruct("u1", AccStruct{})` panics in `store.Set` instead of
storing a record to read back. -/
theorem C3_account_round_trip_zero_record :
    wireKeeper.cdc.marshalAcc ⟨"", []⟩ = none
    ∧ SetAccStruct wireKeeper KVStore.empty "u1" ⟨"", []⟩ = none :=
  ⟨rfl, rfl⟩

/-- C3 amended: for every store, id and record `R` whose encoding is not the nil slice,
`SetAccStruct(I, R)` returns, and `GetAccStruct(I)` afterwards returns exactly `R` and
leaves the store as it is, provided the codec decodes the encoding of `R` back to
`R`. -/
theorem C3_account_round_trip {Bytes : Type} (k : Keeper Bytes) (ctx : KVStore Bytes)
    (I : String) (R : AccStruct) (bz : Bytes)
    (henc : k.cdc.marshalAcc R = some bz)
    (hcodec : k.cdc.unmarshalAcc bz = some R) :
    ∃ ctx', SetAccStruct k ctx I R = some ctx'
      ∧ GetAccStruct k ctx' I = some (R, ctx') :=
  GetAccStruct_SetAccStruct k ctx I R bz henc hcodec

/-- C3 amended, at a concrete input: the account `"u1"` holding 15 BTC, written to the
empty store. -/
theorem C3_account_round_trip_witness :
    wireKeeper.cdc.marshalAcc ⟨"bob", [⟨"BTC", "15"⟩]⟩
        = some (Wire.acc ⟨"bob", [⟨"BTC", "15"⟩]⟩)
    ∧ wireKeeper.cdc.unmarshalAcc (Wire.acc ⟨"bob", [⟨"BTC", "15"⟩]⟩)
        = some ⟨"bob", [⟨"BTC", "15"⟩]⟩
    ∧ ∃ ctx', SetAccStruct wireKeeper KVStore.empty "u1" ⟨"bob", [⟨"BTC", "15"⟩]⟩ = some ctx'
      ∧ GetAccStruct wireKeeper ctx' "u1" = some (⟨"bob", [⟨"BTC", "15"⟩]⟩, ctx') :=
  ⟨by decide, rfl,
    C3_account_round_trip wireKeeper KVStore.empty "u1" ⟨"bob", [⟨"BTC", "15"⟩]⟩
      (Wire.acc ⟨"bob", [⟨"BTC", "15"⟩]⟩) (by decide) rfl⟩

/-! ## Pool round trip (C4) -/

/-- C4, at a concrete input: after `SetPoolStruct("p1", R)` on the empty store, with
`R` the pool `{100, 50, TKN, Token}`, the call `GetPoolStruct("p1")` returns the zero
value `PoolStruct{}` (all four fields empty), not `R`. -/
theorem C4_pool_round_trip_unprefixed_id :
    ((SetPoolStruct wireKeeper KVStore.empty "p1" ⟨"100", "50", "TKN", "Token"⟩).bind
        fun ctx => GetPoolStruct wireKeeper ctx "p1").map Prod.fst
      = some ⟨"", "", "", ""⟩ := by
  decide

/-! ## Key normalisation (C5) -/

/-- C5: for each of the three kinds and every string `id`, normalising twice is the same
as normalising once, and the normalised key starts with the kind's prefix (`"acc-"`,
`"stake-"` or `"pool-"`). -/
theorem C5_normalize_idempotent (id : String) (kind : Kind) :
    normalize (normalize id kind) kind = normalize id kind
    ∧ HasPrefix (normalize id kind) kind.tag = true
    ∧ (normalize id kind = kind.tag ++ id ∨ normalize id kind = id) := by
  refine ⟨normalize_idem id kind, normalize_hasPrefix id kind, ?_⟩
  unfold normalize
  by_cases h : HasPrefix id kind.tag = true
  · right; simp [h]
  · left; simp [h]

section AccountLemmas
variable {Bytes : Type}

theorem GetAccStruct_normalize (k : Keeper Bytes) (ctx : KVStore Bytes) (accID : String) :
    GetAccStruct k ctx (normalize accID .account) = GetAccStruct k ctx accID := by
  unfold GetAccStruct
  rw [normalize_idem]

theorem SetAccStruct_normalize (k : Keeper Bytes) (ctx : KVStore Bytes) (accID : String)
    (accstruct : AccStruct) :
    SetAccStruct k ctx (normalize accID .account) accstruct
      = SetAccStruct k ctx accID accstruct := by
  unfold SetAccStruct
  rw [normalize_idem]

theorem GetAccStruct_store (k : Keeper Bytes) {ctx ctx0 : KVStore Bytes} {accID : String}
    {accstruct : AccStruct} (h : GetAccStruct k ctx accID = some (accstruct, ctx0)) :
    ctx0 = ctx := by
  cases hs : ctx (normalize accID .account) with
  | none =>
    rw [GetAccStruct_absent k ctx accID hs] at h
    simp only [Option.some.injEq, Prod.mk.injEq] at h
    exact h.2.symm
  | some bz =>
    rw [GetAccStruct_present k ctx accID bz hs] at h
    cases hd : k.cdc.unmarshalAcc bz with
    | none => rw [hd] at h; simp at h
    | some a =>
      rw [hd] at h
      simp only [Option.map_some', Option.some.injEq, Prod.mk.injEq] at h
      exact h.2.symm

theorem setAmount_found (T a : String) (H : List Holding) :
    (setAmount T a H).2 = H.any (fun h => decide (h.Ticker = T)) := by
  induction H with
  | nil => rfl
  | cons r rest ih =>
    by_cases hr : r.Ticker = T
    · simp [setAmount, hr]
    · simp [setAmount, hr, ih]

theorem setAmount_list (T a : String) (H : List Holding) :
    (setAmount T a H).1
      = H.modify (fun h => { h with Amount := a })
          (H.findIdx (fun h => decide (h.Ticker = T))) := by
  induction H with
  | nil => rfl
  | cons r rest ih =>
    by_cases hr : r.Ticker = T
    · simp [setAmount, hr, List.findIdx_cons]
    · simp [setAmount, hr, List.findIdx_cons, ih]

theorem modify_of_not_any (T a : String) (H : List Holding)
    (h : H.any (fun h => decide (h.Ticker = T)) = false) :
    H.modify (fun h => { h with Amount := a })
        (H.findIdx (fun h => decide (h.Ticker = T))) = H := by
  induction H with
  | nil => rfl
  | cons r rest ih =>
    simp only [List.any_cons, Bool.or_eq_false_iff, decide_eq_false_iff_not] at h
    simp [List.findIdx_cons, h.1, ih h.2]

theorem SetAccData_of_get (k : Keeper Bytes) (ctx ctx0 : KVStore Bytes)
    (accID name ticker amount : String) (accstruct : AccStruct)
    (hget : GetAccStruct k ctx accID = some (accstruct, ctx0)) :
    SetAccData k ctx accID name ticker amount
      = SetAccStruct k ctx accID
          { Name := accstruct.Name,
            Holdings := upsertHolding (k.ToUpper ticker) amount accstruct.Holdings } := by
  have hctx : ctx0 = ctx := GetAccStruct_store k hget
  subst hctx
  unfold SetAccData
  simp only [GetAccStruct_normalize, hget, SetAccStruct_normalize]
  have hf := setAmount_found (k.ToUpper ticker) amount accstruct.Holdings
  have hl := setAmount_list (k.ToUpper ticker) amount accstruct.Holdings
  rcases hsa : setAmount (k.ToUpper ticker) amount accstruct.Holdings with ⟨holdings, found⟩
  rw [hsa] at hf hl
  simp only at hf hl
  unfold upsertHolding
  cases hany : accstruct.Holdings.any (fun h => decide (h.Ticker = k.ToUpper ticker)) with
  | true =>
    rw [hany] at hf
    subst hf
    simp [hl]
  | false =>
    rw [hany] at hf
    subst hf
    rw [modify_of_not_any _ _ _ hany] at hl
    simp [hl]

theorem upsertHolding_ne_nil (T a : String) (H : List Holding) :
    upsertHolding T a H ≠ [] := by
  unfold upsertHolding
  cases hany : H.any (fun h => decide (h.Ticker = T)) with
  | true =>
    simp only [if_true]
    intro h
    have hl := congrArg List.length h
    rw [List.length_modify] at hl
    have : H = [] := List.length_eq_zero.1 hl
    rw [this] at hany
    simp at hany
  | false => simp

theorem upserted_ne_New (n T a : String) (H : List Holding) :
    ({ Name := n, Holdings := upsertHolding T a H } : AccStruct) ≠ NewAccStruct := by
  intro h
  have := congrArg AccStruct.Holdings h
  exact upsertHolding_ne_nil T a H this

/-- What `SetAccData` does when the read before it returns and the codec keeps its
contract: it returns, and the record read back is the upsert of the record read. -/
theorem SetAccData_then_get (k : Keeper Bytes) (ctx ctx0 : KVStore Bytes)
    (accID name ticker amount : String) (accstruct : AccStruct)
    (hcodec : AccCodec k)
    (hget : GetAccStruct k ctx accID = some (accstruct, ctx0)) :
    ∃ ctx' bz, SetAccData k ctx accID name ticker amount = some ctx'
      ∧ ctx' = ctx.insert (normalize accID .account) bz
      ∧ k.cdc.marshalAcc
          { Name := accstruct.Name,
            Holdings := upsertHolding (k.ToUpper ticker) amount accstruct.Holdings }
          = some bz
      ∧ GetAccStruct k ctx' accID
          = some ({ Name := accstruct.Name,
                    Holdings := upsertHolding (k.ToUpper ticker) amount
                      accstruct.Holdings }, ctx') := by
  cases hm : k.cdc.marshalAcc
      { Name := accstruct.Name,
        Holdings := upsertHolding (k.ToUpper ticker) amount accstruct.Holdings } with
  | none => exact absurd hm (hcodec.2 _ (upserted_ne_New _ _ _ _))
  | some bz =>
    refine ⟨_, bz, ?_, rfl, rfl, GetAccStruct_insert k ctx accID _ bz (hcodec.1 _ bz hm)⟩
    rw [SetAccData_of_get k ctx ctx0 accID name ticker amount accstruct hget]
    exact SetAccStruct_of_some k ctx accID _ bz hm

theorem wireCodec_acc : AccCodec wireKeeper := by
  refine ⟨?_, ?_⟩
  · intro r bz h
    simp only [wireKeeper, wireCodec] at h
    split at h
    · exact absurd h (by simp)
    · simp only [Option.some.injEq] at h
      subst h
      rfl
  · intro r hr
    simp only [wireKeeper, wireCodec]
    rw [if_neg hr]
    simp

theorem wireCodec_stake : StakeCodec wireKeeper := by
  refine ⟨?_, ?_⟩
  · intro r bz h
    simp only [wireKeeper, wireCodec] at h
    split at h
    · exact absurd h (by simp)
    · simp only [Option.some.injEq] at h
      subst h
      rfl
  · intro r hr
    simp only [wireKeeper, wireCodec]
    rw [if_neg hr]
    simp

theorem wireCodec_pool : PoolCodec wireKeeper := by
  refine ⟨?_, ?_⟩
  · intro r bz h
    simp only [wireKeeper, wireCodec] at h
    split at h
    · exact absurd h (by simp)
    · simp only [Option.some.injEq] at h
      subst h
      rfl
  · intro r hr
    simp only [wireKeeper, wireCodec]
    rw [if_neg hr]
    simp

end AccountLemmas

/-! ## Holdings upsert (C6, C7) -/

/-- C6: `SetAccData` is the reference list upsert.  Whenever `GetAccStruct(id)` returns a
record with holdings `H` before the call, `SetAccData(id, name, t, a)` returns, and
`GetAccStruct(id)` afterwards returns the record with the same name and the holdings
`upsertHolding (ToUpper t) a H`: the amount of the first holding with ticker `ToUpper t`
replaced by `a` in place when there is one, `H` followed by `{ToUpper t, a}` otherwise.
The codec is assumed to keep its contract: it decodes what it encoded, and gives the nil
slice for no record but the all-zero one. -/
theorem C6_upsert_holding_refines {Bytes : Type} (k : Keeper Bytes)
    (ctx ctx0 : KVStore Bytes) (accID name t a : String) (accstruct : AccStruct)
    (hcodec : AccCodec k)
    (hget : GetAccStruct k ctx accID = some (accstruct, ctx0)) :
    ∃ ctx', SetAccData k ctx accID name t a = some ctx'
      ∧ GetAccStruct k ctx' accID
          = some ({ Name := accstruct.Name,
                    Holdings := upsertHolding (k.ToUpper t) a accstruct.Holdings }, ctx') := by
  obtain ⟨ctx', _, hset, _, _, hread⟩ :=
    SetAccData_then_get k ctx ctx0 accID name t a accstruct hcodec hget
  exact ⟨ctx', hset, hread⟩

/-- C6 at a concrete input: the account `"u1"` holds `[ETH 1, BTC 10, BTC 7]`; the call
`SetAccData("u1", "", "btc", "15")` returns and leaves `[ETH 1, BTC 15, BTC 7]`. -/
theorem C6_upsert_holding_refines_witness :
    AccCodec wireKeeper
    ∧ GetAccStruct wireKeeper
          (KVStore.empty.insert "acc-u1"
            (Wire.acc ⟨"bob", [⟨"ETH", "1"⟩, ⟨"BTC", "10"⟩, ⟨"BTC", "7"⟩]⟩)) "u1"
        = some (⟨"bob", [⟨"ETH", "1"⟩, ⟨"BTC", "10"⟩, ⟨"BTC", "7"⟩]⟩,
            KVStore.empty.insert "acc-u1"
              (Wire.acc ⟨"bob", [⟨"ETH", "1"⟩, ⟨"BTC", "10"⟩, ⟨"BTC", "7"⟩]⟩))
    ∧ upsertHolding (wireKeeper.ToUpper "btc") "15"
          [⟨"ETH", "1"⟩, ⟨"BTC", "10"⟩, ⟨"BTC", "7"⟩]
        = [⟨"ETH", "1"⟩, ⟨"BTC", "15"⟩, ⟨"BTC", "7"⟩]
    ∧ ∃ ctx', SetAccData wireKeeper
          (KVStore.empty.insert "acc-u1"
            (Wire.acc ⟨"bob", [⟨"ETH", "1"⟩, ⟨"BTC", "10"⟩, ⟨"BTC", "7"⟩]⟩)) "u1" "" "btc" "15"
          = some ctx'
        ∧ GetAccStruct wireKeeper ctx' "u1"
          = some ({ Name := "bob",
                    Holdings := upsertHolding (wireKeeper.ToUpper "btc") "15"
                      [⟨"ETH", "1"⟩, ⟨"BTC", "10"⟩, ⟨"BTC", "7"⟩] }, ctx') :=
  ⟨wireCodec_acc, rfl, by decide,
    C6_upsert_holding_refines wireKeeper _ _ "u1" "" "btc" "15"
      ⟨"bob", [⟨"ETH", "1"⟩, ⟨"BTC", "10"⟩, ⟨"BTC", "7"⟩]⟩ (wireCodec_acc) rfl⟩

/-- C7: on an account id never written, `SetAccData(id, _, t1, a)` followed by
`SetAccData(id, _, t2, b)`, for tickers `t1` and `t2` with the same uppercase form `T`,
both return, and `GetAccStruct(id)` then returns the record whose holdings are the
one-element list `[{T, b}]`.  The codec is assumed to keep its contract: it decodes what
it encoded, and gives the nil slice for no record but the all-zero one. -/
theorem C7_upsert_idempotent_on_ticker {Bytes : Type} (k : Keeper Bytes)
    (ctx : KVStore Bytes) (accID n1 n2 t1 t2 T a b : String)
    (hcodec : AccCodec k)
    (hnew : ctx (normalize accID .account) = none)
    (h1 : k.ToUpper t1 = T) (h2 : k.ToUpper t2 = T) :
    ∃ ctx1 ctx2, SetAccData k ctx accID n1 t1 a = some ctx1
      ∧ SetAccData k ctx1 accID n2 t2 b = some ctx2
      ∧ GetAccStruct k ctx2 accID
          = some ({ Name := "", Holdings := [{ Ticker := T, Amount := b }] }, ctx2) := by
  obtain ⟨ctx1, _, e1, _, _, g1⟩ := SetAccData_then_get k ctx ctx accID n1 t1 a NewAccStruct
    hcodec (GetAccStruct_absent k ctx accID hnew)
  obtain ⟨ctx2, _, e2, _, _, g2⟩ := SetAccData_then_get k ctx1 ctx1 accID n2 t2 b _ hcodec g1
  have hh : upsertHolding (k.ToUpper t2) b
      (upsertHolding (k.ToUpper t1) a NewAccStruct.Holdings)
        = [{ Ticker := T, Amount := b }] := by
    rw [h1, h2]
    simp [upsertHolding, NewAccStruct, List.findIdx_cons]
  simp only [hh] at g2
  exact ⟨ctx1, ctx2, e1, e2, g2⟩

/-- C7 at the spec's input: `"btc"` then `"BTC"` on the fresh account `"u1"`. -/
theorem C7_upsert_idempotent_on_ticker_witness :
    AccCodec wireKeeper
    ∧ (KVStore.empty : KVStore Wire) (normalize "u1" .account) = none
    ∧ wireKeeper.ToUpper "btc" = "BTC" ∧ wireKeeper.ToUpper "BTC" = "BTC"
    ∧ ∃ ctx1 ctx2, SetAccData wireKeeper KVStore.empty "u1" "" "btc" "10" = some ctx1
      ∧ SetAccData wireKeeper ctx1 "u1" "" "BTC" "15" = some ctx2
      ∧ GetAccStruct wireKeeper ctx2 "u1"
          = some ({ Name := "", Holdings := [{ Ticker := "BTC", Amount := "15" }] }, ctx2) :=
  ⟨wireCodec_acc, rfl, by decide, by decide,
    C7_upsert_idempotent_on_ticker wireKeeper KVStore.empty "u1" "" "" "btc" "BTC" "BTC"
      "10" "15" (wireCodec_acc) rfl (by decide) (by decide)⟩

section InvariantLemmas
variable {Bytes : Type}

theorem toUpper_toUpper (c : Char) : c.toUpper.toUpper = c.toUpper := by
  unfold Char.toUpper
  simp only
  split
  · rename_i h
    have hv : (c.toNat - 32).isValidChar := by
      left; omega
    have h2 : (Char.ofNat (c.toNat - 32)).toNat = c.toNat - 32 := by
      unfold Char.ofNat
      rw [dif_pos hv]
      rfl
    rw [h2]
    split
    · omega
    · rfl
  · rename_i h
    simp [h]

theorem asciiUpper_idem (s : String) : asciiUpper (asciiUpper s) = asciiUpper s := by
  have h : Char.toUpper ∘ Char.toUpper = Char.toUpper := funext toUpper_toUpper
  simp [asciiUpper, h]

theorem map_Ticker_modify (a : String) (H : List Holding) (n : Nat) :
    (H.modify (fun h => { h with Amount := a }) n).map (fun h => h.Ticker)
      = H.map (fun h => h.Ticker) := by
  induction H generalizing n with
  | nil => cases n <;> rfl
  | cons r rest ih =>
    cases n with
    | zero => simp
    | succ n => simp [ih]

theorem Ticker_of_mem_modify (a : String) (H : List Holding) (n : Nat) (h : Holding)
    (hm : h ∈ H.modify (fun h => { h with Amount := a }) n) :
    ∃ h' ∈ H, h'.Ticker = h.Ticker := by
  have : h.Ticker ∈ (H.modify (fun h => { h with Amount := a }) n).map (fun h => h.Ticker) :=
    List.mem_map_of_mem _ hm
  rw [map_Ticker_modify] at this
  simpa using this

theorem Canonical_upsert (k : Keeper Bytes) (accstruct : AccStruct) (t a : String)
    (hupper : k.ToUpper (k.ToUpper t) = k.ToUpper t) (hc : Canonical k accstruct) :
    Canonical k { Name := accstruct.Name,
                  Holdings := upsertHolding (k.ToUpper t) a accstruct.Holdings } := by
  obtain ⟨hup, hnd⟩ := hc
  unfold Canonical upsertHolding
  cases hany : accstruct.Holdings.any (fun h => decide (h.Ticker = k.ToUpper t)) with
  | true =>
    simp only [if_true]
    refine ⟨?_, ?_⟩
    · intro h hm
      obtain ⟨h', hm', he⟩ := Ticker_of_mem_modify a _ _ h hm
      rw [← he]
      exact hup h' hm'
    · rw [map_Ticker_modify]
      exact hnd
  | false =>
    simp only [Bool.false_eq_true, if_false]
    refine ⟨?_, ?_⟩
    · intro h hm
      rcases List.mem_append.1 hm with hm | hm
      · exact hup h hm
      · simp only [List.mem_singleton] at hm
        subst hm
        exact hupper
    · rw [List.map_append, List.nodup_append]
      refine ⟨hnd, by simp, ?_⟩
      intro T hT hT'
      simp only [List.map_cons, List.map_nil, List.mem_singleton] at hT'
      obtain ⟨h, hm, he⟩ := List.mem_map.1 hT
      have : accstruct.Holdings.any (fun h => decide (h.Ticker = k.ToUpper t)) = true :=
        List.any_eq_true.2 ⟨h, hm, by simp [he, hT']⟩
      rw [hany] at this
      exact Bool.noConfusion this

theorem Canonical_New (k : Keeper Bytes) : Canonical k NewAccStruct := by
  simp [Canonical, NewAccStruct]

theorem OnePerTicker_of_Canonical (k : Keeper Bytes) (accstruct : AccStruct)
    (hc : Canonical k accstruct) : OnePerTicker k accstruct := by
  obtain ⟨hup, hnd⟩ := hc
  unfold OnePerTicker
  have : accstruct.Holdings.map (fun h => k.ToUpper h.Ticker)
      = accstruct.Holdings.map (fun h => h.Ticker) :=
    List.map_congr_left hup
  rw [this]
  exact hnd

theorem AccountStore_empty (k : Keeper Bytes) : AccountStore k KVStore.empty :=
  fun _ => Or.inl rfl

theorem AccountStore_get (k : Keeper Bytes) (ctx : KVStore Bytes)
    (hcodec : AccCodec k)
    (hinv : AccountStore k ctx) (accID : String) :
    ∃ accstruct, GetAccStruct k ctx accID = some (accstruct, ctx) ∧ Canonical k accstruct := by
  rcases hinv (normalize accID .account) with h | ⟨acc, bz, h, hm, hc⟩
  · exact ⟨_, GetAccStruct_absent k ctx accID h, Canonical_New k⟩
  · refine ⟨acc, ?_, hc⟩
    rw [GetAccStruct_present k ctx accID _ h, hcodec.1 acc bz hm]
    rfl

theorem AccountStore_set (k : Keeper Bytes) (ctx ctx' : KVStore Bytes)
    (hinv : AccountStore k ctx) (accID : String) (accstruct : AccStruct)
    (hc : Canonical k accstruct)
    (hset : SetAccStruct k ctx accID accstruct = some ctx') : AccountStore k ctx' := by
  obtain ⟨hkey, hrest⟩ := SetAccStruct_frame k ctx ctx' accID accstruct hset
  intro key
  by_cases hk : key = normalize accID .account
  · subst hk
    cases hm : k.cdc.marshalAcc accstruct with
    | none => rw [SetAccStruct_of_none k ctx accID accstruct hm] at hset; simp at hset
    | some bz =>
      right
      exact ⟨accstruct, bz, by rw [hkey, hm], hm, hc⟩
  · rw [hrest key hk]
    exact hinv key

theorem AccountStore_run (k : Keeper Bytes)
    (hcodec : AccCodec k)
    (hupper : ∀ s, k.ToUpper (k.ToUpper s) = k.ToUpper s)
    (ops : List AccOp) (hops : CanonicalOps k ops) (ctx : KVStore Bytes)
    (hinv : AccountStore k ctx) :
    (∀ ctx', runAccOps k ctx ops = some ctx' → AccountStore k ctx')
      ∧ ((∀ accID, AccOp.setRecord accID NewAccStruct ∉ ops) →
          ∃ ctx', runAccOps k ctx ops = some ctx') := by
  induction ops generalizing ctx with
  | nil =>
    refine ⟨fun ctx' h => ?_, fun _ => ⟨ctx, rfl⟩⟩
    simp only [runAccOps, Option.some.injEq] at h
    exact h ▸ hinv
  | cons op ops ih =>
    have hops' : CanonicalOps k ops := fun op' hm => hops op' (List.mem_cons_of_mem _ hm)
    have hstep : ∀ ctx1, op.run k ctx = some ctx1 → AccountStore k ctx1 := by
      intro ctx1 hrun
      cases op with
      | setRecord accID accstruct =>
        have hc : Canonical k accstruct := hops _ (List.mem_cons_self _ _)
        exact AccountStore_set k ctx ctx1 hinv accID accstruct hc hrun
      | upsert accID name ticker amount =>
        obtain ⟨acc, hget, hc⟩ := AccountStore_get k ctx hcodec hinv accID
        have hset := SetAccData_of_get k ctx ctx accID name ticker amount acc hget
        simp only [AccOp.run, hset] at hrun
        exact AccountStore_set k ctx ctx1 hinv accID _
          (Canonical_upsert k acc ticker amount (hupper ticker) hc) hrun
    refine ⟨fun ctx' h => ?_, fun hnz => ?_⟩
    · cases hrun : op.run k ctx with
      | none => simp [runAccOps, hrun] at h
      | some ctx1 =>
        simp only [runAccOps, hrun] at h
        exact (ih hops' ctx1 (hstep ctx1 hrun)).1 ctx' h
    · have hnz' : ∀ accID, AccOp.setRecord accID NewAccStruct ∉ ops :=
        fun accID hm => hnz accID (List.mem_cons_of_mem _ hm)
      have hsome : ∃ ctx1, op.run k ctx = some ctx1 := by
        cases op with
        | setRecord accID accstruct =>
          have hne : accstruct ≠ NewAccStruct := by
            intro e
            exact hnz accID (e ▸ List.mem_cons_self _ _)
          cases hm : k.cdc.marshalAcc accstruct with
          | none => exact absurd hm (hcodec.2 _ hne)
          | some bz => exact ⟨_, SetAccStruct_of_some k ctx accID accstruct bz hm⟩
        | upsert accID name ticker amount =>
          obtain ⟨acc, hget, _⟩ := AccountStore_get k ctx hcodec hinv accID
          obtain ⟨ctx1, _, h1, _⟩ :=
            SetAccData_then_get k ctx ctx accID name ticker amount acc hcodec hget
          exact ⟨ctx1, h1⟩
      obtain ⟨ctx1, hrun⟩ := hsome
      obtain ⟨ctx', hr⟩ := (ih hops' ctx1 (hstep ctx1 hrun)).2 hnz'
      exact ⟨ctx', by simpa [runAccOps, hrun] using hr⟩

end InvariantLemmas

/-! ## Account invariant (C8) -/

/-- C8 as stated fails: from the empty store, the single operation
`SetAccStruct("u1", {holdings: [BTC 1, BTC 2]})` stores a record with two holdings of
ticker BTC; and `SetAccStruct("u1", {holdings: [btc 1]})` followed by
`SetAccData("u1", "", "btc", "2")` stores `[btc 1, BTC 2]`, two holdings of one ticker
compared case-insensitively. -/
theorem C8_set_record_breaks_one_per_ticker :
    (∃ ctx accstruct,
      runAccOps wireKeeper KVStore.empty
          [.setRecord "u1" ⟨"", [⟨"BTC", "1"⟩, ⟨"BTC", "2"⟩]⟩] = some ctx
        ∧ GetAccStruct wireKeeper ctx "u1" = some (accstruct, ctx)
        ∧ accstruct.Holdings = [⟨"BTC", "1"⟩, ⟨"BTC", "2"⟩]
        ∧ ¬ OnePerTicker wireKeeper accstruct)
    ∧ (∃ ctx accstruct,
      runAccOps wireKeeper KVStore.empty
          [.setRecord "u1" ⟨"", [⟨"btc", "1"⟩]⟩, .upsert "u1" "" "btc" "2"] = some ctx
        ∧ GetAccStruct wireKeeper ctx "u1" = some (accstruct, ctx)
        ∧ accstruct.Holdings = [⟨"btc", "1"⟩, ⟨"BTC", "2"⟩]
        ∧ ¬ OnePerTicker wireKeeper accstruct) :=
  ⟨⟨_, _, rfl, rfl, rfl, by decide⟩, ⟨_, _, rfl, rfl, rfl, by decide⟩⟩

/-- C8 amended: take any sequence of account operations in which each `SetAccStruct`
writes a record whose tickers are uppercase and pairwise distinct, and each `SetAccData`
has arbitrary arguments.  In every store the sequence reaches from the empty store,
`GetAccStruct` returns, for every id, a record with at most one holding per ticker,
tickers compared by uppercase form; and the sequence runs to the end when no
`SetAccStruct` in it writes the all-zero record, on which `store.Set` panics.  The codec
is assumed to keep its contract and `ToUpper` to be idempotent. -/
theorem C8_one_per_ticker_canonical_ops {Bytes : Type} (k : Keeper Bytes)
    (ops : List AccOp)
    (hcodec : AccCodec k)
    (hupper : ∀ s, k.ToUpper (k.ToUpper s) = k.ToUpper s)
    (hops : CanonicalOps k ops) :
    (∀ ctx, runAccOps k KVStore.empty ops = some ctx →
        ∀ accID, ∃ accstruct, GetAccStruct k ctx accID = some (accstruct, ctx)
          ∧ OnePerTicker k accstruct)
    ∧ ((∀ accID, AccOp.setRecord accID NewAccStruct ∉ ops) →
        ∃ ctx, runAccOps k KVStore.empty ops = some ctx) := by
  obtain ⟨hpart, htot⟩ :=
    AccountStore_run k hcodec hupper ops hops KVStore.empty (AccountStore_empty k)
  refine ⟨fun ctx hr accID => ?_, htot⟩
  obtain ⟨acc, hget, hc⟩ := AccountStore_get k ctx hcodec (hpart ctx hr) accID
  exact ⟨acc, hget, OnePerTicker_of_Canonical k acc hc⟩

section ReadLemmas

theorem canonical_sample_ops :
    CanonicalOps wireKeeper
      [.upsert "u1" "" "btc" "10", .setRecord "u2" ⟨"al", [⟨"ETH", "1"⟩, ⟨"BTC", "2"⟩]⟩,
        .upsert "u1" "" "BTC" "15", .upsert "u2" "" "eth" "3"] := by
  decide

theorem findAmount_eq_find (T : String) (H : List Holding) :
    findAmount T H
      = ((H.find? (fun h => decide (h.Ticker = T))).map (fun h => h.Amount)).getD "" := by
  induction H with
  | nil => rfl
  | cons r rest ih =>
    by_cases hr : r.Ticker = T
    · simp [findAmount, hr]
    · simp [findAmount, hr, ih]

theorem GetAccData_of_get {Bytes : Type} (k : Keeper Bytes) (ctx ctx0 : KVStore Bytes)
    (accID ticker : String) (accstruct : AccStruct)
    (hget : GetAccStruct k ctx accID = some (accstruct, ctx0)) :
    GetAccData k ctx accID ticker
      = some (findAmount (k.ToUpper ticker) accstruct.Holdings, ctx) := by
  have hctx : ctx0 = ctx := GetAccStruct_store k hget
  subst hctx
  unfold GetAccData
  simp only [GetAccStruct_normalize, hget]

end ReadLemmas

/-- C8 amended, at a concrete input: four account operations on the accounts `"u1"` and
`"u2"`, the one `SetAccStruct` among them writing `[ETH 1, BTC 2]`; the sequence runs to
the end. -/
theorem C8_one_per_ticker_canonical_ops_witness :
    AccCodec wireKeeper
    ∧ (∀ s, wireKeeper.ToUpper (wireKeeper.ToUpper s) = wireKeeper.ToUpper s)
    ∧ CanonicalOps wireKeeper
        [.upsert "u1" "" "btc" "10", .setRecord "u2" ⟨"al", [⟨"ETH", "1"⟩, ⟨"BTC", "2"⟩]⟩,
          .upsert "u1" "" "BTC" "15", .upsert "u2" "" "eth" "3"]
    ∧ (∀ ctx, runAccOps wireKeeper KVStore.empty
          [.upsert "u1" "" "btc" "10", .setRecord "u2" ⟨"al", [⟨"ETH", "1"⟩, ⟨"BTC", "2"⟩]⟩,
            .upsert "u1" "" "BTC" "15", .upsert "u2" "" "eth" "3"] = some ctx →
        ∀ accID, ∃ accstruct, GetAccStruct wireKeeper ctx accID = some (accstruct, ctx)
            ∧ OnePerTicker wireKeeper accstruct)
    ∧ ∃ ctx, runAccOps wireKeeper KVStore.empty
          [.upsert "u1" "" "btc" "10", .setRecord "u2" ⟨"al", [⟨"ETH", "1"⟩, ⟨"BTC", "2"⟩]⟩,
            .upsert "u1" "" "BTC" "15", .upsert "u2" "" "eth" "3"] = some ctx :=
  ⟨wireCodec_acc, asciiUpper_idem, canonical_sample_ops,
    (C8_one_per_ticker_canonical_ops wireKeeper _ wireCodec_acc asciiUpper_idem
      canonical_sample_ops).1,
    (C8_one_per_ticker_canonical_ops wireKeeper _ wireCodec_acc asciiUpper_idem
      canonical_sample_ops).2 (fun accID h => by simp [NewAccStruct] at h)⟩

/-! ## Reading a holding (C9) -/

/-- C9 as stated fails: in the store left by `SetPoolStruct("acc-u1", pool)` the key
`"acc-u1"` holds bytes that do not decode to an account, `GetAccStruct("u1")` panics in
`MustUnmarshalBinaryBare`, and so does `GetAccData("u1", "btc")`. -/
theorem C9_get_holding_amount_undecodable :
    SetPoolStruct wireKeeper KVStore.empty "acc-u1" ⟨"100", "50", "TKN", "Token"⟩
      = some (KVStore.empty.insert "acc-u1" (Wire.pool ⟨"100", "50", "TKN", "Token"⟩))
    ∧ GetAccStruct wireKeeper
        (KVStore.empty.insert "acc-u1" (Wire.pool ⟨"100", "50", "TKN", "Token"⟩)) "u1"
      = none
    ∧ GetAccData wireKeeper
        (KVStore.empty.insert "acc-u1" (Wire.pool ⟨"100", "50", "TKN", "Token"⟩)) "u1"
        "btc" = none :=
  ⟨rfl, rfl, rfl⟩

/-- C9 amended: `GetAccData(id, t)` fails exactly when `GetAccStruct(id)` fails.  Whenever
`GetAccStruct(id)` returns a record, `GetAccData(id, t)` returns, with the store
unchanged, the amount of the first holding of that record whose ticker is `ToUpper t`,
and `""` when no holding has that ticker; on an id never written it returns `""`; and
`GetAccData(id, t)` equals `GetAccData(id, ToUpper t)`, `ToUpper` being idempotent at
`t`. -/
theorem C9_get_holding_amount {Bytes : Type} (k : Keeper Bytes) (ctx : KVStore Bytes)
    (accID t : String) (hupper : k.ToUpper (k.ToUpper t) = k.ToUpper t) :
    (∀ accstruct ctx0, GetAccStruct k ctx accID = some (accstruct, ctx0) →
        GetAccData k ctx accID t
            = some (((accstruct.Holdings.find? (fun h => decide (h.Ticker = k.ToUpper t))).map
                (fun h => h.Amount)).getD "", ctx)
          ∧ ((∀ h ∈ accstruct.Holdings, h.Ticker ≠ k.ToUpper t) →
              GetAccData k ctx accID t = some ("", ctx)))
    ∧ (ctx (normalize accID .account) = none → GetAccData k ctx accID t = some ("", ctx))
    ∧ GetAccData k ctx accID t = GetAccData k ctx accID (k.ToUpper t)
    ∧ (GetAccData k ctx accID t = none ↔ GetAccStruct k ctx accID = none) := by
  refine ⟨?_, ?_, ?_, ?_⟩
  · intro accstruct ctx0 hget
    have h := GetAccData_of_get k ctx ctx0 accID t accstruct hget
    rw [findAmount_eq_find] at h
    refine ⟨h, fun hno => ?_⟩
    rw [h]
    have : accstruct.Holdings.find? (fun h => decide (h.Ticker = k.ToUpper t)) = none := by
      rw [List.find?_eq_none]
      intro x hx
      simpa using hno x hx
    rw [this]
    rfl
  · intro hnew
    rw [GetAccData_of_get k ctx ctx accID t NewAccStruct (GetAccStruct_absent k ctx accID hnew)]
    rfl
  · unfold GetAccData
    rw [hupper]
  · cases hget : GetAccStruct k ctx accID with
    | none => simp [GetAccData, GetAccStruct_normalize, hget]
    | some p =>
      obtain ⟨accstruct, ctx0⟩ := p
      simp [GetAccData_of_get k ctx ctx0 accID t accstruct hget]

/-- C9 amended, at a concrete input: the account `"u1"` holds `[ETH 1, BTC 10, BTC 7]`;
reading `"btc"` gives `"10"`, and the account `"u2"`, never written, gives `""`. -/
theorem C9_get_holding_amount_witness :
    wireKeeper.ToUpper (wireKeeper.ToUpper "btc") = wireKeeper.ToUpper "btc"
    ∧ GetAccData wireKeeper
          (KVStore.empty.insert "acc-u1"
            (Wire.acc ⟨"bob", [⟨"ETH", "1"⟩, ⟨"BTC", "10"⟩, ⟨"BTC", "7"⟩]⟩)) "u1" "btc"
        = some ("10", KVStore.empty.insert "acc-u1"
            (Wire.acc ⟨"bob", [⟨"ETH", "1"⟩, ⟨"BTC", "10"⟩, ⟨"BTC", "7"⟩]⟩))
    ∧ GetAccData wireKeeper
          (KVStore.empty.insert "acc-u1"
            (Wire.acc ⟨"bob", [⟨"ETH", "1"⟩, ⟨"BTC", "10"⟩, ⟨"BTC", "7"⟩]⟩)) "u2" "btc"
        = some ("", KVStore.empty.insert "acc-u1"
            (Wire.acc ⟨"bob", [⟨"ETH", "1"⟩, ⟨"BTC", "10"⟩, ⟨"BTC", "7"⟩]⟩))
    ∧ GetAccData wireKeeper
          (KVStore.empty.insert "acc-u1"
            (Wire.acc ⟨"bob", [⟨"ETH", "1"⟩, ⟨"BTC", "10"⟩, ⟨"BTC", "7"⟩]⟩)) "u1" "btc"
        = GetAccData wireKeeper
          (KVStore.empty.insert "acc-u1"
            (Wire.acc ⟨"bob", [⟨"ETH", "1"⟩, ⟨"BTC", "10"⟩, ⟨"BTC", "7"⟩]⟩)) "u1"
            (wireKeeper.ToUpper "btc") :=
  ⟨by decide,
    ((C9_get_holding_amount wireKeeper
      (KVStore.empty.insert "acc-u1"
            (Wire.acc ⟨"bob", [⟨"ETH", "1"⟩, ⟨"BTC", "10"⟩, ⟨"BTC", "7"⟩]⟩)) "u1" "btc" (by decide)).1
      ⟨"bob", [⟨"ETH", "1"⟩, ⟨"BTC", "10"⟩, ⟨"BTC", "7"⟩]⟩ _ rfl).1,
    (C9_get_holding_amount wireKeeper
      (KVStore.empty.insert "acc-u1"
            (Wire.acc ⟨"bob", [⟨"ETH", "1"⟩, ⟨"BTC", "10"⟩, ⟨"BTC", "7"⟩]⟩)) "u2" "btc" (by decide)).2.1 rfl,
    (C9_get_holding_amount wireKeeper
      (KVStore.empty.insert "acc-u1"
            (Wire.acc ⟨"bob", [⟨"ETH", "1"⟩, ⟨"BTC", "10"⟩, ⟨"BTC", "7"⟩]⟩)) "u1" "btc" (by decide)).2.2.1⟩

/-! ## Absence defaults (C10) -/

/-- C10: when the canonical account key of `id` is not in the store, `GetAccStruct(id)`
returns `{Name: "", Holdings: []}`; when the canonical stake key of `id` is not in the
store, `GetStakeStruct(id)` returns `{Ticker: "", Stakes: []}`; both return without
failing and hand back the store unchanged. -/
theorem C10_absence_defaults {Bytes : Type} (k : Keeper Bytes) (ctx : KVStore Bytes)
    (id : String) :
    (ctx.Has (normalize id .account) = false →
        GetAccStruct k ctx id = some ({ Name := "", Holdings := [] }, ctx))
    ∧ (ctx.Has (normalize id .stake) = false →
        GetStakeStruct k ctx id = some ({ Ticker := "", Stakes := [] }, ctx)) := by
  refine ⟨fun h => ?_, fun h => ?_⟩
  · simp [GetAccStruct, h, NewAccStruct]
  · simp [GetStakeStruct, h, NewStakeStruct]

/-- C10 at the spec's input: the id `"u2"` in a store that holds only the account
`"u1"`. -/
theorem C10_absence_defaults_witness :
    (KVStore.empty.insert "acc-u1" (Wire.acc ⟨"bob", [⟨"BTC", "15"⟩]⟩)).Has (normalize "u2" .account) = false
    ∧ (KVStore.empty.insert "acc-u1" (Wire.acc ⟨"bob", [⟨"BTC", "15"⟩]⟩)).Has (normalize "u2" .stake) = false
    ∧ GetAccStruct wireKeeper (KVStore.empty.insert "acc-u1" (Wire.acc ⟨"bob", [⟨"BTC", "15"⟩]⟩)) "u2"
        = some ({ Name := "", Holdings := [] }, KVStore.empty.insert "acc-u1" (Wire.acc ⟨"bob", [⟨"BTC", "15"⟩]⟩))
    ∧ GetStakeStruct wireKeeper (KVStore.empty.insert "acc-u1" (Wire.acc ⟨"bob", [⟨"BTC", "15"⟩]⟩)) "u2"
        = some ({ Ticker := "", Stakes := [] }, KVStore.empty.insert "acc-u1" (Wire.acc ⟨"bob", [⟨"BTC", "15"⟩]⟩)) :=
  ⟨by decide, by decide,
    (C10_absence_defaults wireKeeper (KVStore.empty.insert "acc-u1" (Wire.acc ⟨"bob", [⟨"BTC", "15"⟩]⟩)) "u2").1 (by decide),
    (C10_absence_defaults wireKeeper (KVStore.empty.insert "acc-u1" (Wire.acc ⟨"bob", [⟨"BTC", "15"⟩]⟩)) "u2").2 (by decide)⟩

/-! ## Stake paths -/

section StakeLemmas
variable {Bytes : Type}

theorem splitAux_ne_nil (sep : List Char) (l : List Char) (skip : Nat) (cur : List Char) :
    splitAux sep l skip cur ≠ [] := by
  induction l generalizing skip cur with
  | nil => simp [splitAux]
  | cons c rest ih =>
    cases skip with
    | succ n => simpa [splitAux] using ih n cur
    | zero =>
      by_cases h : sep.isPrefixOf (c :: rest) = true
      · simp [splitAux, h]
      · simpa [splitAux, h] using ih 0 (c :: cur)

theorem splitAux_no_sep (c : Char) (l cur : List Char) (h : c ∉ l) :
    splitAux [c] l 0 cur = [String.mk (cur.reverse ++ l)] := by
  induction l generalizing cur with
  | nil => simp [splitAux]
  | cons d rest ih =>
    have hd : c ≠ d := fun e => h (e ▸ List.mem_cons_self _ _)
    have hr : c ∉ rest := fun m => h (List.mem_cons_of_mem _ m)
    have hp : List.isPrefixOf [c] (d :: rest) = false := by
      simp [List.isPrefixOf, hd]
    simp [splitAux, hp, ih (d :: cur) hr]

theorem splitAux_length_of_mem (c : Char) (l cur : List Char) (h : c ∈ l) :
    2 ≤ (splitAux [c] l 0 cur).length := by
  induction l generalizing cur with
  | nil => simp at h
  | cons d rest ih =>
    by_cases hd : c = d
    · subst hd
      have hp : List.isPrefixOf [c] (c :: rest) = true := by simp [List.isPrefixOf]
      have hne := splitAux_ne_nil [c] rest 0 []
      have : 1 ≤ (splitAux [c] rest 0 []).length := by
        cases hs : splitAux [c] rest 0 [] with
        | nil => exact absurd hs hne
        | cons a b => simp
      simp only [splitAux, hp, if_true, List.length_cons, List.length_singleton]
      simpa using this
    · have hr : c ∈ rest := by
        rcases List.mem_cons.1 h with e | m
        · exact absurd e hd
        · exact m
      have hp : List.isPrefixOf [c] (d :: rest) = false := by
        simp [List.isPrefixOf, hd]
      simpa [splitAux, hp] using ih (d :: cur) hr

theorem Split_dash_length (s : String) (h : '-' ∈ s.data) : 2 ≤ (Split s "-").length := by
  have : (Split s "-") = splitAux ['-'] s.data 0 [] := by
    simp [Split]
  rw [this]
  exact splitAux_length_of_mem '-' s.data [] h

theorem Split_dash_second (s : String) (h : '-' ∈ s.data) :
    ∃ ticker, (Split s "-")[1]? = some ticker := by
  have hl := Split_dash_length s h
  exact ⟨(Split s "-")[1], List.getElem?_eq_getElem (by omega)⟩

theorem Split_stake_id (T : String) (h : '-' ∉ T.data) :
    Split ("stake-" ++ T) "-" = ["stake", T] := by
  have e : ("stake-" ++ T).data = 's' :: 't' :: 'a' :: 'k' :: 'e' :: '-' :: T.data := by
    rw [String.data_append]
    rfl
  have : Split ("stake-" ++ T) "-" = splitAux ['-'] ("stake-" ++ T).data 0 [] := by
    simp [Split]
  rw [this, e]
  simp [splitAux, List.isPrefixOf, splitAux_no_sep '-' T.data [] h]

theorem mem_dash_of_hasPrefix_stake (s : String) (h : HasPrefix s "stake-" = true) :
    '-' ∈ s.data := by
  unfold HasPrefix at h
  rw [List.isPrefixOf_iff_prefix] at h
  obtain ⟨t, ht⟩ := h
  rw [← ht]
  simp

end StakeLemmas

section StakeStoreLemmas
variable {Bytes : Type}

theorem GetStakeStruct_present (k : Keeper Bytes) (ctx : KVStore Bytes) (stakeID : String)
    (bz : Bytes) (h : ctx (normalize stakeID .stake) = some bz) :
    GetStakeStruct k ctx stakeID = (k.cdc.unmarshalStake bz).map (fun a => (a, ctx)) := by
  simp only [GetStakeStruct, KVStore.Has, KVStore.Get, h]
  cases k.cdc.unmarshalStake bz <;> simp

theorem GetStakeStruct_normalize (k : Keeper Bytes) (ctx : KVStore Bytes)
    (stakeID : String) :
    GetStakeStruct k ctx (normalize stakeID .stake) = GetStakeStruct k ctx stakeID := by
  unfold GetStakeStruct
  rw [normalize_idem]

theorem GetStakeStruct_store (k : Keeper Bytes) {ctx ctx0 : KVStore Bytes}
    {stakeID : String} {stakestruct : StakeStruct}
    (h : GetStakeStruct k ctx stakeID = some (stakestruct, ctx0)) : ctx0 = ctx := by
  cases hs : ctx (normalize stakeID .stake) with
  | none =>
    rw [GetStakeStruct_absent k ctx stakeID hs] at h
    simp only [Option.some.injEq, Prod.mk.injEq] at h
    exact h.2.symm
  | some bz =>
    rw [GetStakeStruct_present k ctx stakeID bz hs] at h
    cases hd : k.cdc.unmarshalStake bz with
    | none => rw [hd] at h; simp at h
    | some a =>
      rw [hd] at h
      simp only [Option.map_some', Option.some.injEq, Prod.mk.injEq] at h
      exact h.2.symm

theorem GetPoolStruct_store (k : Keeper Bytes) {ctx ctx0 : KVStore Bytes}
    {poolID : String} {poolstruct : PoolStruct}
    (h : GetPoolStruct k ctx poolID = some (poolstruct, ctx0)) : ctx0 = ctx := by
  cases hs : ctx (normalize poolID .pool) with
  | none =>
    rw [GetPoolStruct_absent k ctx poolID hs] at h
    simp only [Option.some.injEq, Prod.mk.injEq] at h
    exact h.2.symm
  | some bz =>
    cases hd : k.cdc.unmarshalPool bz with
    | none => simp [GetPoolStruct, KVStore.Has, KVStore.Get, hs, hd] at h
    | some a =>
      rw [GetPoolStruct_present k ctx poolID bz a hs hd] at h
      simp only [Option.some.injEq, Prod.mk.injEq] at h
      exact h.2.symm

/-- With an id that already starts with `"stake-"`, reading the key that holds bytes
decoding to `R` gives `R`. -/
theorem GetStakeStruct_insert_prefixed (k : Keeper Bytes) (ctx : KVStore Bytes)
    (stakeID : String) (R : StakeStruct) (bz : Bytes)
    (hid : HasPrefix stakeID "stake-" = true)
    (hdec : k.cdc.unmarshalStake bz = some R) :
    GetStakeStruct k (ctx.insert stakeID bz) stakeID = some (R, ctx.insert stakeID bz) := by
  have hn : normalize stakeID .stake = stakeID := normalize_of_hasPrefix hid
  rw [GetStakeStruct_present k _ stakeID bz, hdec]
  · rfl
  · rw [hn]
    exact KVStore.insert_same _ _ _

theorem SetStakeData_of_get (k : Keeper Bytes) (ctx ctx0 : KVStore Bytes)
    (stakeID name atom token ticker : String) (stakestruct : StakeStruct)
    (hget : GetStakeStruct k ctx stakeID = some (stakestruct, ctx0))
    (hparts : (Split stakeID "-")[1]? = some ticker) :
    SetStakeData k ctx stakeID name atom token
      = SetStakeStruct k ctx stakeID
          { Ticker := ticker,
            Stakes := storedStakes name atom token stakestruct.Stakes } := by
  have hctx : ctx0 = ctx := GetStakeStruct_store k hget
  subst hctx
  unfold SetStakeData storedStakes
  simp only [hget, hparts]
  rcases hsa : setStake name atom token stakestruct.Stakes with ⟨stakes, found⟩
  cases found <;> simp

theorem SetStakeData_of_get_none (k : Keeper Bytes) (ctx : KVStore Bytes)
    (stakeID name atom token : String) (hget : GetStakeStruct k ctx stakeID = none) :
    SetStakeData k ctx stakeID name atom token = none := by
  unfold SetStakeData
  simp only [hget]

theorem SetStakeData_no_second (k : Keeper Bytes) (ctx : KVStore Bytes)
    (stakeID name atom token : String) (hparts : (Split stakeID "-")[1]? = none) :
    SetStakeData k ctx stakeID name atom token = none := by
  unfold SetStakeData
  simp only [hparts]
  cases GetStakeStruct k ctx stakeID with
  | none => rfl
  | some p => rfl

theorem GetStakeData_of_get (k : Keeper Bytes) (ctx ctx0 : KVStore Bytes)
    (stakeID name : String) (stakestruct : StakeStruct)
    (hget : GetStakeStruct k ctx stakeID = some (stakestruct, ctx0)) :
    GetStakeData k ctx stakeID name
      = some ((findStake name stakestruct.Stakes).getD
          { Name := name, Atom := "0", Token := "0" }, ctx) := by
  have hctx : ctx0 = ctx := GetStakeStruct_store k hget
  subst hctx
  unfold GetStakeData
  simp only [GetStakeStruct_normalize, hget]
  cases findStake name stakestruct.Stakes <;> rfl

theorem findStake_eq_find (name : String) (S : List AccStake) :
    findStake name S = S.find? (fun r => decide (r.Name = name)) := by
  induction S with
  | nil => rfl
  | cons r rest ih =>
    by_cases hr : r.Name = name
    · simp [findStake, hr]
    · simp [findStake, hr, ih]

theorem storedStakes_nil (name atom token : String) :
    storedStakes name atom token [] = [{ Name := name, Atom := atom, Token := token }] :=
  rfl

theorem storedStakes_cons_eq (name atom token : String) (r : AccStake)
    (rest : List AccStake) (h : r.Name = name) :
    storedStakes name atom token (r :: rest)
      = { r with Atom := atom, Token := token } :: rest := by
  simp [storedStakes, setStake, h]

theorem storedStakes_cons_ne (name atom token : String) (r : AccStake)
    (rest : List AccStake) (h : r.Name ≠ name) :
    storedStakes name atom token (r :: rest)
      = r :: storedStakes name atom token rest := by
  unfold storedStakes
  simp only [setStake, h, if_false]
  cases (setStake name atom token rest).2 <;> simp

theorem findStake_storedStakes_same (name atom token : String) (S : List AccStake) :
    findStake name (storedStakes name atom token S)
      = some { Name := name, Atom := atom, Token := token } := by
  induction S with
  | nil => simp [storedStakes_nil, findStake]
  | cons r rest ih =>
    by_cases hr : r.Name = name
    · rw [storedStakes_cons_eq _ _ _ _ _ hr]
      simp [findStake, hr]
    · rw [storedStakes_cons_ne _ _ _ _ _ hr]
      simp [findStake, hr, ih]

theorem findStake_storedStakes_other (name atom token other : String)
    (S : List AccStake) (ho : other ≠ name) :
    findStake other (storedStakes name atom token S) = findStake other S := by
  induction S with
  | nil => simp [storedStakes_nil, findStake, Ne.symm ho]
  | cons r rest ih =>
    by_cases hr : r.Name = name
    · rw [storedStakes_cons_eq _ _ _ _ _ hr]
      have : r.Name ≠ other := fun e => ho (e ▸ hr)
      simp [findStake, this]
    · rw [storedStakes_cons_ne _ _ _ _ _ hr]
      by_cases hq : r.Name = other
      · simp [findStake, hq]
      · simp [findStake, hq, ih]

theorem map_Name_storedStakes (name atom token : String) (S : List AccStake) :
    (storedStakes name atom token S).map (fun r => r.Name)
      = if name ∈ S.map (fun r => r.Name) then S.map (fun r => r.Name)
        else S.map (fun r => r.Name) ++ [name] := by
  induction S with
  | nil => simp [storedStakes_nil]
  | cons r rest ih =>
    by_cases hr : r.Name = name
    · rw [storedStakes_cons_eq _ _ _ _ _ hr]
      simp [hr]
    · rw [storedStakes_cons_ne _ _ _ _ _ hr]
      have hr' : ¬ name = r.Name := fun e => hr e.symm
      by_cases hm : name ∈ rest.map (fun r => r.Name)
      · simp only [List.map_cons, ih, hm, if_true, List.mem_cons, or_true]
      · simp only [List.map_cons, ih, hm, if_false, List.mem_cons, hr', or_self,
          List.cons_append]

theorem filter_storedStakes (name atom token : String) (S : List AccStake) :
    (storedStakes name atom token S).filter (fun r => decide (r.Name ≠ name))
      = S.filter (fun r => decide (r.Name ≠ name)) := by
  induction S with
  | nil => simp [storedStakes_nil]
  | cons r rest ih =>
    by_cases hr : r.Name = name
    · rw [storedStakes_cons_eq _ _ _ _ _ hr]
      simp [hr]
    · rw [storedStakes_cons_ne _ _ _ _ _ hr]
      have ih' := ih
      simp only [ne_eq, decide_not] at ih'
      simp [hr, ih']

theorem storedStakes_ne_nil (name atom token : String) (S : List AccStake) :
    storedStakes name atom token S ≠ [] := by
  cases S with
  | nil => simp [storedStakes_nil]
  | cons r rest =>
    by_cases hr : r.Name = name
    · rw [storedStakes_cons_eq _ _ _ _ _ hr]
      simp
    · rw [storedStakes_cons_ne _ _ _ _ _ hr]
      simp

theorem stored_ne_New (ticker name atom token : String) (S : List AccStake) :
    ({ Ticker := ticker, Stakes := storedStakes name atom token S } : StakeStruct)
      ≠ NewStakeStruct := by
  intro h
  exact storedStakes_ne_nil name atom token S (congrArg StakeStruct.Stakes h)

/-- What `SetStakeData` does on an id that starts with `"stake-"` when the read before it
returns and the codec keeps its contract: it returns, and the record read back has the
second piece of the id as ticker and the stored stakes. -/
theorem SetStakeData_then_get (k : Keeper Bytes) (ctx ctx0 : KVStore Bytes)
    (stakeID name atom token : String) (R0 : StakeStruct)
    (hid : HasPrefix stakeID "stake-" = true) (hcodec : StakeCodec k)
    (hget : GetStakeStruct k ctx stakeID = some (R0, ctx0)) :
    ∃ ctx' ticker, (Split stakeID "-")[1]? = some ticker
      ∧ SetStakeData k ctx stakeID name atom token = some ctx'
      ∧ GetStakeStruct k ctx' stakeID
          = some ({ Ticker := ticker,
                    Stakes := storedStakes name atom token R0.Stakes }, ctx') := by
  obtain ⟨ticker, hparts⟩ := Split_dash_second stakeID (mem_dash_of_hasPrefix_stake _ hid)
  cases hm : k.cdc.marshalStake
      { Ticker := ticker, Stakes := storedStakes name atom token R0.Stakes } with
  | none => exact absurd hm (hcodec.2 _ (stored_ne_New _ _ _ _ _))
  | some bz =>
    refine ⟨_, ticker, hparts, ?_,
      GetStakeStruct_insert_prefixed k ctx stakeID _ bz hid (hcodec.1 _ bz hm)⟩
    rw [SetStakeData_of_get k ctx ctx0 stakeID name atom token ticker R0 hget hparts]
    exact SetStakeStruct_of_some k ctx stakeID _ bz hm

end StakeStoreLemmas

section PoolStoreLemmas
variable {Bytes : Type}

theorem tag_append_ne (id : String) (kind : Kind) : kind.tag ++ id ≠ id := by
  intro h
  have hl := congrArg String.length h
  rw [String.length_append] at hl
  have : 0 < kind.tag.length := by cases kind <;> decide
  omega

theorem normalize_of_not_hasPrefix {id : String} {kind : Kind}
    (h : HasPrefix id kind.tag = false) : normalize id kind = kind.tag ++ id := by
  simp [normalize, h]

theorem GetPoolStruct_congr (k : Keeper Bytes) (ctx ctx' : KVStore Bytes) (poolID : String)
    (h : ctx' (normalize poolID .pool) = ctx (normalize poolID .pool)) :
    (GetPoolStruct k ctx' poolID).map Prod.fst = (GetPoolStruct k ctx poolID).map Prod.fst := by
  cases hs : ctx (normalize poolID .pool) with
  | none =>
    rw [GetPoolStruct_absent k ctx poolID hs, GetPoolStruct_absent k ctx' poolID (h.trans hs)]
    rfl
  | some bz =>
    cases hd : k.cdc.unmarshalPool bz with
    | none => simp [GetPoolStruct, KVStore.Has, KVStore.Get, h, hs, hd]
    | some R =>
      rw [GetPoolStruct_present k ctx poolID bz R hs hd,
        GetPoolStruct_present k ctx' poolID bz R (h.trans hs) hd]
      rfl

theorem GetPoolStruct_of_fst (k : Keeper Bytes) (ctx : KVStore Bytes) (poolID : String)
    (R : PoolStruct) (h : (GetPoolStruct k ctx poolID).map Prod.fst = some R) :
    GetPoolStruct k ctx poolID = some (R, ctx) := by
  cases hg : GetPoolStruct k ctx poolID with
  | none => rw [hg] at h; simp at h
  | some p =>
    obtain ⟨R', ctx0⟩ := p
    have hctx : ctx0 = ctx := GetPoolStruct_store k hg
    rw [hg] at h
    simp only [Option.map_some', Option.some.injEq] at h
    rw [hctx, h]

theorem SetBalances_of_get (k : Keeper Bytes) (ctx ctx0 : KVStore Bytes)
    (poolID atom token : String) (R : PoolStruct)
    (hget : GetPoolStruct k ctx poolID = some (R, ctx0)) :
    SetBalances k ctx poolID atom token
      = SetPoolStruct k ctx poolID
          { BalanceAtom := atom, BalanceToken := token, Ticker := R.Ticker,
            TokenName := R.TokenName } := by
  have hctx : ctx0 = ctx := GetPoolStruct_store k hget
  subst hctx
  simp [SetBalances, hget]

theorem SetPoolData_of_get (k : Keeper Bytes) (ctx ctx0 : KVStore Bytes)
    (poolID tokenName ticker atom token : String) (R : PoolStruct)
    (hget : GetPoolStruct k ctx poolID = some (R, ctx0)) :
    SetPoolData k ctx poolID tokenName ticker atom token
      = SetPoolStruct k ctx poolID
          { BalanceAtom := atom, BalanceToken := token, Ticker := k.ToUpper ticker,
            TokenName := tokenName } := by
  have hctx : ctx0 = ctx := GetPoolStruct_store k hget
  subst hctx
  simp [SetPoolData, hget]

theorem SetPoolData_of_get_none (k : Keeper Bytes) (ctx : KVStore Bytes)
    (poolID tokenName ticker atom token : String)
    (hget : GetPoolStruct k ctx poolID = none) :
    SetPoolData k ctx poolID tokenName ticker atom token = none := by
  simp [SetPoolData, hget]

/-- With an id that already starts with `"pool-"`, non-empty balances written by
`SetPoolData` are read back by `GetPoolData` in the order the ticker selects. -/
theorem GetPoolData_SetPoolData_prefixed (k : Keeper Bytes) (ctx ctx0 : KVStore Bytes)
    (poolID tokenName ticker p s x : String) (R0 : PoolStruct)
    (hid : HasPrefix poolID "pool-" = true) (hcodec : PoolCodec k)
    (hget : GetPoolStruct k ctx poolID = some (R0, ctx0))
    (hp : p ≠ "") (hs : s ≠ "") :
    ∃ ctx', SetPoolData k ctx poolID tokenName ticker p s = some ctx'
      ∧ GetPoolData k ctx' poolID x
          = some (if k.ToUpper x = "ATOM" then (p, s) else (s, p), ctx') := by
  have hnz : PoolStruct.mk p s (k.ToUpper ticker) tokenName ≠ NewPoolStruct :=
    fun h => hp (congrArg PoolStruct.BalanceAtom h)
  obtain ⟨ctx', hset, hread⟩ :=
    GetPoolStruct_SetPoolStruct_prefixed k ctx poolID _ hid hcodec hnz
  refine ⟨ctx', ?_, ?_⟩
  · rw [SetPoolData_of_get k ctx ctx0 poolID tokenName ticker p s R0 hget]
    exact hset
  · unfold GetPoolData
    rw [hread]
    by_cases hx : k.ToUpper x = "ATOM" <;> simp [hx, hp, hs]

end PoolStoreLemmas

/-! ## Pool reads and writes (C11 to C14) -/

/-- C11, at a concrete input: on the empty store `GetPoolStruct("pool-1")` returns the zero
value `PoolStruct{}`, whose `BalanceAtom` and `BalanceToken` are both `""`, not `"0"`;
the defaults are applied only after a successful decode, and the absent key returns
before them. -/
theorem C11_pool_read_never_written :
    (GetPoolStruct wireKeeper KVStore.empty "pool-1").map
        (fun r => (r.1.BalanceAtom, r.1.BalanceToken)) = some ("", "")
    ∧ ((SetPoolStruct wireKeeper KVStore.empty "pool-1" ⟨"", "", "TKN", "Token"⟩).bind
          fun ctx => GetPoolStruct wireKeeper ctx "pool-1").map
        (fun r => (r.1.BalanceAtom, r.1.BalanceToken)) = some ("0", "0") := by
  decide

/-- C12: whenever `GetPoolStruct(id)` returns a record `R`, `GetPoolData(id, x)` returns,
with the store unchanged, `(R.BalanceAtom, R.BalanceToken)` when `ToUpper x` is `"ATOM"`
and `(R.BalanceToken, R.BalanceAtom)` otherwise; so for a ticker whose uppercase form is
not `"ATOM"` the result is the swap of the result for `"ATOM"`, `ToUpper` leaving
`"ATOM"` as it is. -/
theorem C12_paired_balances_dispatch {Bytes : Type} (k : Keeper Bytes)
    (ctx ctx0 : KVStore Bytes) (poolID x : String) (R : PoolStruct)
    (hget : GetPoolStruct k ctx poolID = some (R, ctx0))
    (hatom : k.ToUpper "ATOM" = "ATOM") :
    (k.ToUpper x = "ATOM" →
        GetPoolData k ctx poolID x = some ((R.BalanceAtom, R.BalanceToken), ctx))
    ∧ (k.ToUpper x ≠ "ATOM" →
        GetPoolData k ctx poolID x = some ((R.BalanceToken, R.BalanceAtom), ctx))
    ∧ (k.ToUpper x ≠ "ATOM" →
        (GetPoolData k ctx poolID x).map (fun r => r.1.swap)
          = (GetPoolData k ctx poolID "ATOM").map (fun r => r.1)) := by
  have hctx : ctx0 = ctx := GetPoolStruct_store k hget
  subst hctx
  refine ⟨fun hx => ?_, fun hx => ?_, fun hx => ?_⟩
  · simp [GetPoolData, hget, hx]
  · simp [GetPoolData, hget, hx]
  · simp [GetPoolData, hget, hx, hatom]

/-- C12 at a concrete input: the pool `"pool-1"` with balances 100 and 50, read with
`"atom"` and with `"tkn"`. -/
theorem C12_paired_balances_dispatch_witness :
    GetPoolStruct wireKeeper
        (KVStore.empty.insert "pool-1" (Wire.pool ⟨"100", "50", "TKN", "Token"⟩)) "pool-1"
      = some (⟨"100", "50", "TKN", "Token"⟩,
          KVStore.empty.insert "pool-1" (Wire.pool ⟨"100", "50", "TKN", "Token"⟩))
    ∧ wireKeeper.ToUpper "ATOM" = "ATOM"
    ∧ wireKeeper.ToUpper "atom" = "ATOM"
    ∧ wireKeeper.ToUpper "tkn" ≠ "ATOM"
    ∧ GetPoolData wireKeeper
        (KVStore.empty.insert "pool-1" (Wire.pool ⟨"100", "50", "TKN", "Token"⟩))
        "pool-1" "atom"
      = some (("100", "50"),
          KVStore.empty.insert "pool-1" (Wire.pool ⟨"100", "50", "TKN", "Token"⟩))
    ∧ GetPoolData wireKeeper
        (KVStore.empty.insert "pool-1" (Wire.pool ⟨"100", "50", "TKN", "Token"⟩))
        "pool-1" "tkn"
      = some (("50", "100"),
          KVStore.empty.insert "pool-1" (Wire.pool ⟨"100", "50", "TKN", "Token"⟩)) :=
  ⟨rfl, by decide, by decide, by decide,
    (C12_paired_balances_dispatch wireKeeper
      (KVStore.empty.insert "pool-1" (Wire.pool ⟨"100", "50", "TKN", "Token"⟩))
      (KVStore.empty.insert "pool-1" (Wire.pool ⟨"100", "50", "TKN", "Token"⟩))
      "pool-1" "atom" ⟨"100", "50", "TKN", "Token"⟩ rfl (by decide)).1 (by decide),
    (C12_paired_balances_dispatch wireKeeper
      (KVStore.empty.insert "pool-1" (Wire.pool ⟨"100", "50", "TKN", "Token"⟩))
      (KVStore.empty.insert "pool-1" (Wire.pool ⟨"100", "50", "TKN", "Token"⟩))
      "pool-1" "tkn" ⟨"100", "50", "TKN", "Token"⟩ rfl (by decide)).2.1 (by decide)⟩

/-- C13: let `GetPoolStruct(id)` return a record `R` before the call, for any id, with or
without the prefix.  Whenever `SetBalances(id, p, s)` returns, `GetPoolStruct(id)`
afterwards returns a record with the `TokenName` and the `Ticker` of `R`; and the call
does return unless the record it writes, `{p, s, R.Ticker, R.TokenName}`, is the all-zero
record, on which `store.Set` panics and the store stays as it was.  The codec is assumed
to keep its contract. -/
theorem C13_set_balances_keeps_descriptive {Bytes : Type} (k : Keeper Bytes)
    (ctx ctx0 : KVStore Bytes) (poolID p s : String) (R : PoolStruct)
    (hcodec : PoolCodec k)
    (hget : GetPoolStruct k ctx poolID = some (R, ctx0)) :
    (∀ ctx', SetBalances k ctx poolID p s = some ctx' →
        ∃ R', GetPoolStruct k ctx' poolID = some (R', ctx')
          ∧ R'.TokenName = R.TokenName ∧ R'.Ticker = R.Ticker)
    ∧ (PoolStruct.mk p s R.Ticker R.TokenName ≠ NewPoolStruct →
        ∃ ctx', SetBalances k ctx poolID p s = some ctx') := by
  have hset := SetBalances_of_get k ctx ctx0 poolID p s R hget
  have hctx : ctx0 = ctx := GetPoolStruct_store k hget
  subst hctx
  refine ⟨fun ctx' hret => ?_, fun hnz => ?_⟩
  · rw [hset] at hret
    cases hm : k.cdc.marshalPool
        { BalanceAtom := p, BalanceToken := s, Ticker := R.Ticker,
          TokenName := R.TokenName } with
    | none => rw [SetPoolStruct_of_none k ctx0 poolID _ hm] at hret; simp at hret
    | some bz =>
      rw [SetPoolStruct_of_some k ctx0 poolID _ bz hm] at hret
      simp only [Option.some.injEq] at hret
      subst hret
      cases hid : HasPrefix poolID "pool-" with
      | true =>
        exact ⟨_, GetPoolStruct_insert_prefixed k ctx0 poolID _ bz hid (hcodec.1 _ bz hm),
          rfl, rfl⟩
      | false =>
        have hn : normalize poolID .pool = "pool-" ++ poolID :=
          @normalize_of_not_hasPrefix poolID .pool hid
        have hne : normalize poolID .pool ≠ poolID := by
          rw [hn]
          exact tag_append_ne poolID .pool
        have hsame : ctx0.insert poolID bz (normalize poolID .pool)
            = ctx0 (normalize poolID .pool) :=
          KVStore.insert_other _ _ _ hne
        have hfst := GetPoolStruct_congr k ctx0 _ poolID hsame
        rw [hget] at hfst
        exact ⟨R, GetPoolStruct_of_fst k _ poolID R hfst, rfl, rfl⟩
  · cases hm : k.cdc.marshalPool
        { BalanceAtom := p, BalanceToken := s, Ticker := R.Ticker,
          TokenName := R.TokenName } with
    | none => exact absurd hm (hcodec.2 _ hnz)
    | some bz =>
      exact ⟨_, by rw [hset]; exact SetPoolStruct_of_some k ctx0 poolID _ bz hm⟩

/-- C13 at a concrete input: `SetBalances("pool-1", "7", "9")` on the pool `"pool-1"` of
token `Token (TKN)` returns, and the token name and ticker read back are the same. -/
theorem C13_set_balances_keeps_descriptive_witness :
    PoolCodec wireKeeper
    ∧ GetPoolStruct wireKeeper
        (KVStore.empty.insert "pool-1" (Wire.pool ⟨"100", "50", "TKN", "Token"⟩)) "pool-1"
      = some (⟨"100", "50", "TKN", "Token"⟩,
          KVStore.empty.insert "pool-1" (Wire.pool ⟨"100", "50", "TKN", "Token"⟩))
    ∧ PoolStruct.mk "7" "9" "TKN" "Token" ≠ NewPoolStruct
    ∧ (∃ ctx', SetBalances wireKeeper
          (KVStore.empty.insert "pool-1" (Wire.pool ⟨"100", "50", "TKN", "Token"⟩))
          "pool-1" "7" "9" = some ctx')
    ∧ ∀ ctx', SetBalances wireKeeper
          (KVStore.empty.insert "pool-1" (Wire.pool ⟨"100", "50", "TKN", "Token"⟩))
          "pool-1" "7" "9" = some ctx' →
        ∃ R', GetPoolStruct wireKeeper ctx' "pool-1" = some (R', ctx')
          ∧ R'.TokenName = "Token" ∧ R'.Ticker = "TKN" :=
  ⟨wireCodec_pool, rfl, by decide,
    (C13_set_balances_keeps_descriptive wireKeeper
      (KVStore.empty.insert "pool-1" (Wire.pool ⟨"100", "50", "TKN", "Token"⟩))
      (KVStore.empty.insert "pool-1" (Wire.pool ⟨"100", "50", "TKN", "Token"⟩))
      "pool-1" "7" "9" ⟨"100", "50", "TKN", "Token"⟩ wireCodec_pool rfl).2 (by decide),
    (C13_set_balances_keeps_descriptive wireKeeper
      (KVStore.empty.insert "pool-1" (Wire.pool ⟨"100", "50", "TKN", "Token"⟩))
      (KVStore.empty.insert "pool-1" (Wire.pool ⟨"100", "50", "TKN", "Token"⟩))
      "pool-1" "7" "9" ⟨"100", "50", "TKN", "Token"⟩ wireCodec_pool rfl).1⟩

/-- C14 as stated fails in two ways.  When the key `"pool-1"` holds bytes that do not
decode to a pool, `SetPoolData("pool-1", "Token", "tkn", "100", "50")` panics in the
read that opens it and overwrites nothing.  And `SetPoolData("pool-1", "", "", "", "")`
on the empty store panics in `store.Set`, the all-zero record encoding to the nil slice,
so no record `{"", "", "0", "0"}` can be read back. -/
theorem C14_set_pool_data_panics :
    GetPoolStruct wireKeeper
        (KVStore.empty.insert "pool-1" (Wire.acc ⟨"bob", [⟨"BTC", "15"⟩]⟩)) "pool-1" = none
    ∧ SetPoolData wireKeeper
        (KVStore.empty.insert "pool-1" (Wire.acc ⟨"bob", [⟨"BTC", "15"⟩]⟩))
        "pool-1" "Token" "tkn" "100" "50" = none
    ∧ HasPrefix "pool-1" "pool-" = true
    ∧ wireKeeper.cdc.marshalPool ⟨"", "", wireKeeper.ToUpper "", ""⟩ = none
    ∧ SetPoolData wireKeeper KVStore.empty "pool-1" "" "" "" "" = none :=
  ⟨rfl, rfl, by decide, by decide, rfl⟩

/-- C14 amended: for an id that starts with `"pool-"`, `SetPoolData(id, n, t, p, s)` fails
exactly when `GetPoolStruct(id)` fails before it or the record `{p, s, ToUpper t, n}`
encodes to the nil slice.  Whenever `GetPoolStruct(id)` returns before the call and that
record is not the all-zero one, the call returns, and `GetPoolStruct(id)` afterwards
returns `{TokenName: n, Ticker: ToUpper t, BalanceAtom: p, BalanceToken: s}` with an
empty balance read back as `"0"`, whatever the record read before.  The codec is
assumed to keep its contract. -/
theorem C14_set_pool_data_overwrites {Bytes : Type} (k : Keeper Bytes)
    (ctx : KVStore Bytes) (poolID n t p s : String)
    (hid : HasPrefix poolID "pool-" = true)
    (hcodec : PoolCodec k) :
    (∀ R0 ctx0, GetPoolStruct k ctx poolID = some (R0, ctx0) →
        PoolStruct.mk p s (k.ToUpper t) n ≠ NewPoolStruct →
        ∃ ctx', SetPoolData k ctx poolID n t p s = some ctx'
          ∧ GetPoolStruct k ctx' poolID
              = some ({ BalanceAtom := if p = "" then "0" else p,
                        BalanceToken := if s = "" then "0" else s,
                        Ticker := k.ToUpper t, TokenName := n }, ctx'))
    ∧ (SetPoolData k ctx poolID n t p s = none ↔
        GetPoolStruct k ctx poolID = none
          ∨ k.cdc.marshalPool (PoolStruct.mk p s (k.ToUpper t) n) = none) := by
  refine ⟨fun R0 ctx0 hget hnz => ?_, ?_⟩
  · obtain ⟨ctx', hset, hread⟩ :=
      GetPoolStruct_SetPoolStruct_prefixed k ctx poolID _ hid hcodec hnz
    exact ⟨ctx', by rw [SetPoolData_of_get k ctx ctx0 poolID n t p s R0 hget]; exact hset,
      hread⟩
  · cases hget : GetPoolStruct k ctx poolID with
    | none => simp [SetPoolData_of_get_none k ctx poolID n t p s hget]
    | some r =>
      obtain ⟨R0, ctx0⟩ := r
      rw [SetPoolData_of_get k ctx ctx0 poolID n t p s R0 hget]
      cases hm : k.cdc.marshalPool (PoolStruct.mk p s (k.ToUpper t) n) with
      | none => simp [SetPoolStruct_of_none k ctx poolID _ hm]
      | some bz => simp [SetPoolStruct_of_some k ctx poolID _ bz hm]

/-- C14 amended, at the spec's input: `SetPoolData("pool-1", "Token", "tkn", "100", "50")`
over a pool that held other values. -/
theorem C14_set_pool_data_overwrites_witness :
    HasPrefix "pool-1" "pool-" = true
    ∧ PoolCodec wireKeeper
    ∧ GetPoolStruct wireKeeper
        (KVStore.empty.insert "pool-1" (Wire.pool ⟨"1", "2", "OLD", "Old"⟩)) "pool-1"
      = some (⟨"1", "2", "OLD", "Old"⟩,
          KVStore.empty.insert "pool-1" (Wire.pool ⟨"1", "2", "OLD", "Old"⟩))
    ∧ PoolStruct.mk "100" "50" (wireKeeper.ToUpper "tkn") "Token" ≠ NewPoolStruct
    ∧ ∃ ctx', SetPoolData wireKeeper
          (KVStore.empty.insert "pool-1" (Wire.pool ⟨"1", "2", "OLD", "Old"⟩))
          "pool-1" "Token" "tkn" "100" "50" = some ctx'
      ∧ GetPoolStruct wireKeeper ctx' "pool-1"
          = some (⟨"100", "50", "TKN", "Token"⟩, ctx') :=
  ⟨by decide, wireCodec_pool, rfl, by decide,
    (C14_set_pool_data_overwrites wireKeeper
      (KVStore.empty.insert "pool-1" (Wire.pool ⟨"1", "2", "OLD", "Old"⟩))
      "pool-1" "Token" "tkn" "100" "50" (by decide) wireCodec_pool).1
      ⟨"1", "2", "OLD", "Old"⟩ _ rfl (by decide)⟩

/-! ## Stake writes and reads (C15 to C19) -/

/-- C15 as stated fails: in the store left by `SetPoolStruct("stake-ABC", pool)` the key
`"stake-ABC"` holds bytes that do not decode to a stake record, and
`SetStakeData("stake-ABC", "alice", "5", "10")` panics in the read that opens it: no
record with ticker `"ABC"` is there to read back. -/
theorem C15_stake_ticker_undecodable :
    '-' ∉ ("ABC" : String).data
    ∧ SetPoolStruct wireKeeper KVStore.empty "stake-ABC" ⟨"100", "50", "TKN", "Token"⟩
      = some (KVStore.empty.insert "stake-ABC" (Wire.pool ⟨"100", "50", "TKN", "Token"⟩))
    ∧ SetStakeData wireKeeper
        (KVStore.empty.insert "stake-ABC" (Wire.pool ⟨"100", "50", "TKN", "Token"⟩))
        ("stake-" ++ "ABC") "alice" "5" "10" = none
    ∧ GetStakeStruct wireKeeper
        (KVStore.empty.insert "stake-ABC" (Wire.pool ⟨"100", "50", "TKN", "Token"⟩))
        ("stake-" ++ "ABC") = none :=
  ⟨by decide, rfl, rfl, rfl⟩

/-- C15 amended: for the id `"stake-" ++ T` with no `"-"` in `T`, the second piece of
`strings.Split(id, "-")` is `T`; `SetStakeData(id, name, atom, token)` fails exactly when
`GetStakeStruct(id)` fails before it; and whenever `GetStakeStruct(id)` returns before
the call, the call returns and `GetStakeStruct(id)` afterwards returns a record whose
`Ticker` is `T`.  The codec is assumed to keep its contract. -/
theorem C15_stake_ticker_from_id {Bytes : Type} (k : Keeper Bytes)
    (ctx : KVStore Bytes) (T name atom token : String)
    (hT : '-' ∉ T.data) (hcodec : StakeCodec k) :
    (Split ("stake-" ++ T) "-")[1]? = some T
    ∧ (∀ R0 ctx0, GetStakeStruct k ctx ("stake-" ++ T) = some (R0, ctx0) →
        ∃ ctx' R', SetStakeData k ctx ("stake-" ++ T) name atom token = some ctx'
          ∧ GetStakeStruct k ctx' ("stake-" ++ T) = some (R', ctx')
          ∧ R'.Ticker = T)
    ∧ (SetStakeData k ctx ("stake-" ++ T) name atom token = none ↔
        GetStakeStruct k ctx ("stake-" ++ T) = none) := by
  have hparts : (Split ("stake-" ++ T) "-")[1]? = some T := by
    rw [Split_stake_id T hT]
    rfl
  have hret : ∀ R0 ctx0, GetStakeStruct k ctx ("stake-" ++ T) = some (R0, ctx0) →
      ∃ ctx' R', SetStakeData k ctx ("stake-" ++ T) name atom token = some ctx'
        ∧ GetStakeStruct k ctx' ("stake-" ++ T) = some (R', ctx')
        ∧ R'.Ticker = T := by
    intro R0 ctx0 hget
    obtain ⟨ctx', ticker, hp, hset, hread⟩ :=
      SetStakeData_then_get k ctx ctx0 ("stake-" ++ T) name atom token R0
        (HasPrefix_append "stake-" T) hcodec hget
    rw [hparts] at hp
    simp only [Option.some.injEq] at hp
    exact ⟨ctx', _, hset, hread, hp.symm⟩
  refine ⟨hparts, hret, ?_⟩
  cases hget : GetStakeStruct k ctx ("stake-" ++ T) with
  | none => simp [SetStakeData_of_get_none k ctx _ name atom token hget]
  | some r =>
    obtain ⟨R0, ctx0⟩ := r
    obtain ⟨ctx', _, hset, _⟩ := hret R0 ctx0 hget
    simp [hset]

/-- C15 amended, at the spec's input: `SetStakeData("stake-ABC", "alice", "5", "10")` on
the empty store. -/
theorem C15_stake_ticker_from_id_witness :
    '-' ∉ ("ABC" : String).data
    ∧ StakeCodec wireKeeper
    ∧ GetStakeStruct wireKeeper KVStore.empty ("stake-" ++ "ABC")
        = some (NewStakeStruct, KVStore.empty)
    ∧ (Split ("stake-" ++ "ABC") "-")[1]? = some "ABC"
    ∧ ∃ ctx' R', SetStakeData wireKeeper KVStore.empty ("stake-" ++ "ABC") "alice" "5" "10"
          = some ctx'
      ∧ GetStakeStruct wireKeeper ctx' ("stake-" ++ "ABC") = some (R', ctx')
      ∧ R'.Ticker = "ABC" :=
  ⟨by decide, wireCodec_stake, rfl,
    (C15_stake_ticker_from_id wireKeeper KVStore.empty "ABC" "alice" "5" "10"
      (by decide) wireCodec_stake).1,
    (C15_stake_ticker_from_id wireKeeper KVStore.empty "ABC" "alice" "5" "10"
      (by decide) wireCodec_stake).2.1 NewStakeStruct KVStore.empty rfl⟩

/-- C16, at concrete inputs: `SetStakeData` splits the id as given, not the canonical id
that `GetStakeStruct` reads.  `strings.Split("abc", "-")` and `strings.Split("", "-")`
have one piece each, `parts[1]` is out of range, and `SetStakeData` on the empty store
with the id `"abc"` or `""` panics instead of storing a record, although the canonical
ids `"stake-abc"` and `"stake-"` split into two pieces.  With the id `"a-b"` the call
returns, but the record goes under the raw key `"a-b"` and `GetStakeData("a-b", "bob")`
still reads the zero-valued position. -/
theorem C16_set_stake_data_no_delimiter :
    Split "abc" "-" = ["abc"] ∧ Split "" "-" = [""]
    ∧ SetStakeData wireKeeper KVStore.empty "abc" "alice" "5" "10" = none
    ∧ SetStakeData wireKeeper KVStore.empty "" "alice" "5" "10" = none
    ∧ Split (normalize "abc" .stake) "-" = ["stake", "abc"]
    ∧ Split (normalize "" .stake) "-" = ["stake", ""]
    ∧ ((SetStakeData wireKeeper KVStore.empty "a-b" "bob" "1" "2").bind
        fun ctx => GetStakeData wireKeeper ctx "a-b" "bob").map Prod.fst
      = some ⟨"bob", "0", "0"⟩ :=
  ⟨by decide, by decide, SetStakeData_no_second _ _ _ _ _ _ (by decide),
    SetStakeData_no_second _ _ _ _ _ _ (by decide), by decide, by decide, by decide⟩

/-- C17 as stated fails: in the store left by `SetPoolStruct("stake-s1", pool)` the key
`"stake-s1"` holds bytes that do not decode to a stake record, `GetStakeStruct("s1")`
panics in `MustUnmarshalBinaryBare`, and so does `GetStakeData("s1", "alice")`. -/
theorem C17_get_stake_data_undecodable :
    SetPoolStruct wireKeeper KVStore.empty "stake-s1" ⟨"100", "50", "TKN", "Token"⟩
      = some (KVStore.empty.insert "stake-s1" (Wire.pool ⟨"100", "50", "TKN", "Token"⟩))
    ∧ GetStakeStruct wireKeeper
        (KVStore.empty.insert "stake-s1" (Wire.pool ⟨"100", "50", "TKN", "Token"⟩))
        "s1" = none
    ∧ GetStakeData wireKeeper
        (KVStore.empty.insert "stake-s1" (Wire.pool ⟨"100", "50", "TKN", "Token"⟩))
        "s1" "alice" = none :=
  ⟨rfl, rfl, rfl⟩

/-- C17 amended: `GetStakeData(id, name)` fails exactly when `GetStakeStruct(id)` fails.
Whenever `GetStakeStruct(id)` returns a record, `GetStakeData(id, name)` returns, with
the store unchanged, the first position of that record whose `Name` is `name` exactly,
and `{Name: name, Atom: "0", Token: "0"}` when there is none; on an id never written it
returns that zero-valued position. -/
theorem C17_get_stake_data {Bytes : Type} (k : Keeper Bytes) (ctx : KVStore Bytes)
    (stakeID name : String) :
    (∀ R ctx0, GetStakeStruct k ctx stakeID = some (R, ctx0) →
        GetStakeData k ctx stakeID name
          = some ((R.Stakes.find? (fun r => decide (r.Name = name))).getD
              { Name := name, Atom := "0", Token := "0" }, ctx))
    ∧ (ctx (normalize stakeID .stake) = none →
        GetStakeData k ctx stakeID name
          = some ({ Name := name, Atom := "0", Token := "0" }, ctx))
    ∧ (GetStakeData k ctx stakeID name = none ↔ GetStakeStruct k ctx stakeID = none) := by
  refine ⟨?_, ?_, ?_⟩
  · intro R ctx0 hget
    rw [GetStakeData_of_get k ctx ctx0 stakeID name R hget, findStake_eq_find]
  · intro hnew
    rw [GetStakeData_of_get k ctx ctx stakeID name NewStakeStruct
      (GetStakeStruct_absent k ctx stakeID hnew)]
    rfl
  · cases hget : GetStakeStruct k ctx stakeID with
    | none => simp [GetStakeData, GetStakeStruct_normalize, hget]
    | some p =>
      obtain ⟨R, ctx0⟩ := p
      simp [GetStakeData_of_get k ctx ctx0 stakeID name R hget]

/-- C17 amended, at a concrete input: the stake record `"stake-ABC"` holds positions of
alice, bob and again bob; reading `"bob"` gives the first of the two, reading `"carol"`
the zero-valued position, and so does reading from the id `"XYZ"`, never written. -/
theorem C17_get_stake_data_witness :
    GetStakeStruct wireKeeper
        (KVStore.empty.insert "stake-ABC"
          (Wire.stake ⟨"ABC", [⟨"alice", "5", "10"⟩, ⟨"bob", "1", "2"⟩, ⟨"bob", "3", "4"⟩]⟩)) "ABC"
      = some (⟨"ABC", [⟨"alice", "5", "10"⟩, ⟨"bob", "1", "2"⟩, ⟨"bob", "3", "4"⟩]⟩,
          KVStore.empty.insert "stake-ABC"
            (Wire.stake ⟨"ABC", [⟨"alice", "5", "10"⟩, ⟨"bob", "1", "2"⟩, ⟨"bob", "3", "4"⟩]⟩))
    ∧ GetStakeData wireKeeper
        (KVStore.empty.insert "stake-ABC"
          (Wire.stake ⟨"ABC", [⟨"alice", "5", "10"⟩, ⟨"bob", "1", "2"⟩, ⟨"bob", "3", "4"⟩]⟩)) "ABC" "bob"
      = some (⟨"bob", "1", "2"⟩,
          KVStore.empty.insert "stake-ABC"
            (Wire.stake ⟨"ABC", [⟨"alice", "5", "10"⟩, ⟨"bob", "1", "2"⟩, ⟨"bob", "3", "4"⟩]⟩))
    ∧ GetStakeData wireKeeper
        (KVStore.empty.insert "stake-ABC"
          (Wire.stake ⟨"ABC", [⟨"alice", "5", "10"⟩, ⟨"bob", "1", "2"⟩, ⟨"bob", "3", "4"⟩]⟩)) "ABC" "carol"
      = some (⟨"carol", "0", "0"⟩,
          KVStore.empty.insert "stake-ABC"
            (Wire.stake ⟨"ABC", [⟨"alice", "5", "10"⟩, ⟨"bob", "1", "2"⟩, ⟨"bob", "3", "4"⟩]⟩))
    ∧ GetStakeData wireKeeper
        (KVStore.empty.insert "stake-ABC"
          (Wire.stake ⟨"ABC", [⟨"alice", "5", "10"⟩, ⟨"bob", "1", "2"⟩, ⟨"bob", "3", "4"⟩]⟩)) "XYZ" "bob"
      = some (⟨"bob", "0", "0"⟩,
          KVStore.empty.insert "stake-ABC"
            (Wire.stake ⟨"ABC", [⟨"alice", "5", "10"⟩, ⟨"bob", "1", "2"⟩, ⟨"bob", "3", "4"⟩]⟩)) :=
  ⟨rfl,
    (C17_get_stake_data wireKeeper
      (KVStore.empty.insert "stake-ABC"
          (Wire.stake ⟨"ABC", [⟨"alice", "5", "10"⟩, ⟨"bob", "1", "2"⟩, ⟨"bob", "3", "4"⟩]⟩)) "ABC" "bob").1
      ⟨"ABC", [⟨"alice", "5", "10"⟩, ⟨"bob", "1", "2"⟩, ⟨"bob", "3", "4"⟩]⟩ _ rfl,
    (C17_get_stake_data wireKeeper
      (KVStore.empty.insert "stake-ABC"
          (Wire.stake ⟨"ABC", [⟨"alice", "5", "10"⟩, ⟨"bob", "1", "2"⟩, ⟨"bob", "3", "4"⟩]⟩)) "ABC" "carol").1
      ⟨"ABC", [⟨"alice", "5", "10"⟩, ⟨"bob", "1", "2"⟩, ⟨"bob", "3", "4"⟩]⟩ _ rfl,
    (C17_get_stake_data wireKeeper
      (KVStore.empty.insert "stake-ABC"
          (Wire.stake ⟨"ABC", [⟨"alice", "5", "10"⟩, ⟨"bob", "1", "2"⟩, ⟨"bob", "3", "4"⟩]⟩)) "XYZ" "bob").2.1
      rfl⟩


/-- C18: for an id that starts with `"stake-"`, whenever `GetStakeStruct(id)` returns a
record with stakes `S` before the call, `SetStakeData(id, name, atom, token)` returns and
`GetStakeStruct(id)` afterwards returns a record with stakes `S'` such that: pairwise
distinct names in `S` give pairwise distinct names in `S'`; the positions of the other
names are the same, in the same order; `S'` is one longer than `S` when `name` was
absent and as long as `S` when it was present.  The codec is assumed to keep its
contract. -/
theorem C18_set_stake_data_keeps_distinct_names {Bytes : Type} (k : Keeper Bytes)
    (ctx ctx0 : KVStore Bytes) (stakeID name atom token : String) (R0 : StakeStruct)
    (hid : HasPrefix stakeID "stake-" = true)
    (hcodec : StakeCodec k)
    (hget : GetStakeStruct k ctx stakeID = some (R0, ctx0)) :
    ∃ ctx' R', SetStakeData k ctx stakeID name atom token = some ctx'
      ∧ GetStakeStruct k ctx' stakeID = some (R', ctx')
      ∧ ((R0.Stakes.map (fun r => r.Name)).Nodup → (R'.Stakes.map (fun r => r.Name)).Nodup)
      ∧ R'.Stakes.filter (fun r => decide (r.Name ≠ name))
          = R0.Stakes.filter (fun r => decide (r.Name ≠ name))
      ∧ (name ∉ R0.Stakes.map (fun r => r.Name) →
          R'.Stakes.length = R0.Stakes.length + 1)
      ∧ (name ∈ R0.Stakes.map (fun r => r.Name) →
          R'.Stakes.length = R0.Stakes.length) := by
  obtain ⟨ctx', ticker, _, hset, hread⟩ :=
    SetStakeData_then_get k ctx ctx0 stakeID name atom token R0 hid hcodec hget
  have hmap := map_Name_storedStakes name atom token R0.Stakes
  have hlen : ∀ l : List AccStake, l.length = (l.map (fun r => r.Name)).length :=
    fun l => (List.length_map l _).symm
  refine ⟨ctx', _, hset, hread, ?_, filter_storedStakes name atom token R0.Stakes, ?_, ?_⟩
  · intro hnd
    show ((storedStakes name atom token R0.Stakes).map (fun r => r.Name)).Nodup
    rw [hmap]
    by_cases hm : name ∈ R0.Stakes.map (fun r => r.Name)
    · rw [if_pos hm]
      exact hnd
    · rw [if_neg hm, List.nodup_append]
      refine ⟨hnd, by simp, ?_⟩
      intro x hx hx'
      simp only [List.mem_singleton] at hx'
      exact hm (hx' ▸ hx)
  · intro hm
    show (storedStakes name atom token R0.Stakes).length = R0.Stakes.length + 1
    rw [hlen (storedStakes name atom token R0.Stakes), hmap, if_neg hm]
    simp
  · intro hm
    show (storedStakes name atom token R0.Stakes).length = R0.Stakes.length
    rw [hlen (storedStakes name atom token R0.Stakes), hmap, if_pos hm]
    simp

/-- C18 at a concrete input: alice and bob hold positions in `"stake-ABC"`; bob's position
is rewritten. -/
theorem C18_set_stake_data_keeps_distinct_names_witness :
    HasPrefix "stake-ABC" "stake-" = true
    ∧ StakeCodec wireKeeper
    ∧ GetStakeStruct wireKeeper
        (KVStore.empty.insert "stake-ABC"
          (Wire.stake ⟨"ABC", [⟨"alice", "5", "10"⟩, ⟨"bob", "1", "2"⟩]⟩)) "stake-ABC"
      = some (⟨"ABC", [⟨"alice", "5", "10"⟩, ⟨"bob", "1", "2"⟩]⟩,
          KVStore.empty.insert "stake-ABC"
            (Wire.stake ⟨"ABC", [⟨"alice", "5", "10"⟩, ⟨"bob", "1", "2"⟩]⟩))
    ∧ ∃ ctx' R', SetStakeData wireKeeper
          (KVStore.empty.insert "stake-ABC"
          (Wire.stake ⟨"ABC", [⟨"alice", "5", "10"⟩, ⟨"bob", "1", "2"⟩]⟩)) "stake-ABC" "bob" "3" "4"
          = some ctx'
      ∧ GetStakeStruct wireKeeper ctx' "stake-ABC" = some (R', ctx')
      ∧ ((["alice", "bob"] : List String).Nodup → (R'.Stakes.map (fun r => r.Name)).Nodup)
      ∧ R'.Stakes.filter (fun r => decide (r.Name ≠ "bob")) = [⟨"alice", "5", "10"⟩]
      ∧ ("bob" ∉ (["alice", "bob"] : List String) → R'.Stakes.length = 2 + 1)
      ∧ ("bob" ∈ (["alice", "bob"] : List String) → R'.Stakes.length = 2) :=
  ⟨by decide, wireCodec_stake, rfl,
    C18_set_stake_data_keeps_distinct_names wireKeeper
      (KVStore.empty.insert "stake-ABC"
          (Wire.stake ⟨"ABC", [⟨"alice", "5", "10"⟩, ⟨"bob", "1", "2"⟩]⟩))
      (KVStore.empty.insert "stake-ABC"
          (Wire.stake ⟨"ABC", [⟨"alice", "5", "10"⟩, ⟨"bob", "1", "2"⟩]⟩))
      "stake-ABC" "bob" "3" "4" ⟨"ABC", [⟨"alice", "5", "10"⟩, ⟨"bob", "1", "2"⟩]⟩
      (by decide) wireCodec_stake rfl⟩

/-- C19 as stated fails: in the store left by `SetPoolStruct("stake-s1", pool)` the key
`"stake-s1"` holds bytes that do not decode to a stake record, and
`SetStakeData("stake-s1", "bob", "3", "4")` panics in the read that opens it: nothing is
written, and no position `{bob, 3, 4}` is there to read. -/
theorem C19_stake_write_undecodable :
    HasPrefix "stake-s1" "stake-" = true
    ∧ SetPoolStruct wireKeeper KVStore.empty "stake-s1" ⟨"100", "50", "TKN", "Token"⟩
      = some (KVStore.empty.insert "stake-s1" (Wire.pool ⟨"100", "50", "TKN", "Token"⟩))
    ∧ SetStakeData wireKeeper
        (KVStore.empty.insert "stake-s1" (Wire.pool ⟨"100", "50", "TKN", "Token"⟩))
        "stake-s1" "bob" "3" "4" = none
    ∧ GetStakeData wireKeeper
        (KVStore.empty.insert "stake-s1" (Wire.pool ⟨"100", "50", "TKN", "Token"⟩))
        "stake-s1" "bob" = none :=
  ⟨by decide, rfl, rfl, rfl⟩

/-- C19 amended: for an id that starts with `"stake-"`, `SetStakeData(id, name, primary,
secondary)` fails exactly when `GetStakeStruct(id)` fails before it.  Whenever
`GetStakeStruct(id)` returns before the call, the call returns, `GetStakeData(id, name)`
afterwards returns `{Name: name, Atom: primary, Token: secondary}`, and
`GetStakeData(id, other)` returns for every other name the position it returned before.
The codec is assumed to keep its contract. -/
theorem C19_stake_read_after_write {Bytes : Type} (k : Keeper Bytes)
    (ctx : KVStore Bytes) (stakeID name primary secondary : String)
    (hid : HasPrefix stakeID "stake-" = true) (hcodec : StakeCodec k) :
    (∀ R0 ctx0, GetStakeStruct k ctx stakeID = some (R0, ctx0) →
        ∃ ctx', SetStakeData k ctx stakeID name primary secondary = some ctx'
          ∧ GetStakeData k ctx' stakeID name
              = some ({ Name := name, Atom := primary, Token := secondary }, ctx')
          ∧ ∀ other, other ≠ name →
              ∃ position, GetStakeData k ctx stakeID other = some (position, ctx)
                ∧ GetStakeData k ctx' stakeID other = some (position, ctx'))
    ∧ (SetStakeData k ctx stakeID name primary secondary = none ↔
        GetStakeStruct k ctx stakeID = none) := by
  have hret : ∀ R0 ctx0, GetStakeStruct k ctx stakeID = some (R0, ctx0) →
      ∃ ctx', SetStakeData k ctx stakeID name primary secondary = some ctx'
        ∧ GetStakeData k ctx' stakeID name
            = some ({ Name := name, Atom := primary, Token := secondary }, ctx')
        ∧ ∀ other, other ≠ name →
            ∃ position, GetStakeData k ctx stakeID other = some (position, ctx)
              ∧ GetStakeData k ctx' stakeID other = some (position, ctx') := by
    intro R0 ctx0 hget
    obtain ⟨ctx', ticker, _, hset, hread⟩ :=
      SetStakeData_then_get k ctx ctx0 stakeID name primary secondary R0 hid hcodec hget
    refine ⟨ctx', hset, ?_,
      fun other ho => ⟨_, GetStakeData_of_get k ctx ctx0 stakeID other R0 hget, ?_⟩⟩
    · rw [GetStakeData_of_get k _ _ stakeID name _ hread, findStake_storedStakes_same]
      rfl
    · rw [GetStakeData_of_get k _ _ stakeID other _ hread,
        findStake_storedStakes_other name primary secondary other R0.Stakes ho]
  refine ⟨hret, ?_⟩
  cases hget : GetStakeStruct k ctx stakeID with
  | none => simp [SetStakeData_of_get_none k ctx _ name primary secondary hget]
  | some r =>
    obtain ⟨R0, ctx0⟩ := r
    obtain ⟨ctx', hset, _⟩ := hret R0 ctx0 hget
    simp [hset]

/-- C19 amended, at a concrete input: bob's position in `"stake-ABC"` is rewritten to
`3`, `4`. -/
theorem C19_stake_read_after_write_witness :
    HasPrefix "stake-ABC" "stake-" = true
    ∧ StakeCodec wireKeeper
    ∧ GetStakeStruct wireKeeper
        (KVStore.empty.insert "stake-ABC"
          (Wire.stake ⟨"ABC", [⟨"alice", "5", "10"⟩, ⟨"bob", "1", "2"⟩]⟩)) "stake-ABC"
      = some (⟨"ABC", [⟨"alice", "5", "10"⟩, ⟨"bob", "1", "2"⟩]⟩,
          KVStore.empty.insert "stake-ABC"
            (Wire.stake ⟨"ABC", [⟨"alice", "5", "10"⟩, ⟨"bob", "1", "2"⟩]⟩))
    ∧ ∃ ctx', SetStakeData wireKeeper
          (KVStore.empty.insert "stake-ABC"
            (Wire.stake ⟨"ABC", [⟨"alice", "5", "10"⟩, ⟨"bob", "1", "2"⟩]⟩))
          "stake-ABC" "bob" "3" "4" = some ctx'
      ∧ GetStakeData wireKeeper ctx' "stake-ABC" "bob" = some (⟨"bob", "3", "4"⟩, ctx')
      ∧ ∀ other, other ≠ "bob" →
          ∃ position, GetStakeData wireKeeper
              (KVStore.empty.insert "stake-ABC"
                (Wire.stake ⟨"ABC", [⟨"alice", "5", "10"⟩, ⟨"bob", "1", "2"⟩]⟩))
              "stake-ABC" other
              = some (position, KVStore.empty.insert "stake-ABC"
                  (Wire.stake ⟨"ABC", [⟨"alice", "5", "10"⟩, ⟨"bob", "1", "2"⟩]⟩))
            ∧ GetStakeData wireKeeper ctx' "stake-ABC" other = some (position, ctx') :=
  ⟨by decide, wireCodec_stake, rfl,
    (C19_stake_read_after_write wireKeeper
      (KVStore.empty.insert "stake-ABC"
        (Wire.stake ⟨"ABC", [⟨"alice", "5", "10"⟩, ⟨"bob", "1", "2"⟩]⟩))
      "stake-ABC" "bob" "3" "4" (by decide) wireCodec_stake).1
      ⟨"ABC", [⟨"alice", "5", "10"⟩, ⟨"bob", "1", "2"⟩]⟩ _ rfl⟩

/-! ## Aliasing of a logical id and its prefixed form (C20) -/

/-- C20: for an id that does not start with `"acc-"`, `GetAccStruct(id)` and
`GetAccStruct("acc-" + id)` are the same result in every store; likewise `GetStakeStruct`
with `"stake-"` and `GetPoolStruct` with `"pool-"`; and for each kind the two different
ids `id` and `prefix + id` have the same canonical key. -/
theorem C20_prefixed_id_aliases {Bytes : Type} (k : Keeper Bytes) (ctx : KVStore Bytes)
    (id : String) :
    (HasPrefix id "acc-" = false →
        GetAccStruct k ctx id = GetAccStruct k ctx ("acc-" ++ id))
    ∧ (HasPrefix id "stake-" = false →
        GetStakeStruct k ctx id = GetStakeStruct k ctx ("stake-" ++ id))
    ∧ (HasPrefix id "pool-" = false →
        GetPoolStruct k ctx id = GetPoolStruct k ctx ("pool-" ++ id))
    ∧ ∀ kind : Kind, HasPrefix id kind.tag = false →
        id ≠ kind.tag ++ id ∧ normalize id kind = normalize (kind.tag ++ id) kind := by
  have key : ∀ kind : Kind, HasPrefix id kind.tag = false →
      normalize id kind = normalize (kind.tag ++ id) kind := by
    intro kind h
    rw [normalize_of_not_hasPrefix h,
      normalize_of_hasPrefix (HasPrefix_append kind.tag id)]
  refine ⟨fun h => ?_, fun h => ?_, fun h => ?_, fun kind h => ?_⟩
  · have e := key .account h
    unfold GetAccStruct
    rw [e]
    rfl
  · have e := key .stake h
    unfold GetStakeStruct
    rw [e]
    rfl
  · have e := key .pool h
    unfold GetPoolStruct
    rw [e]
    rfl
  · exact ⟨fun e => tag_append_ne id kind e.symm, key kind h⟩

/-- C20 at a concrete input: the ids `"u1"` and `"acc-u1"`, `"ABC"` and `"stake-ABC"`,
`"p1"` and `"pool-p1"`, in a store that holds the account `"u1"`. -/
theorem C20_prefixed_id_aliases_witness :
    HasPrefix "u1" "acc-" = false
    ∧ GetAccStruct wireKeeper
        (KVStore.empty.insert "acc-u1" (Wire.acc ⟨"bob", [⟨"BTC", "15"⟩]⟩)) "u1"
      = GetAccStruct wireKeeper
        (KVStore.empty.insert "acc-u1" (Wire.acc ⟨"bob", [⟨"BTC", "15"⟩]⟩))
        ("acc-" ++ "u1")
    ∧ HasPrefix "u1" "stake-" = false
    ∧ GetStakeStruct wireKeeper
        (KVStore.empty.insert "acc-u1" (Wire.acc ⟨"bob", [⟨"BTC", "15"⟩]⟩)) "u1"
      = GetStakeStruct wireKeeper
        (KVStore.empty.insert "acc-u1" (Wire.acc ⟨"bob", [⟨"BTC", "15"⟩]⟩))
        ("stake-" ++ "u1")
    ∧ HasPrefix "u1" "pool-" = false
    ∧ GetPoolStruct wireKeeper
        (KVStore.empty.insert "acc-u1" (Wire.acc ⟨"bob", [⟨"BTC", "15"⟩]⟩)) "u1"
      = GetPoolStruct wireKeeper
        (KVStore.empty.insert "acc-u1" (Wire.acc ⟨"bob", [⟨"BTC", "15"⟩]⟩))
        ("pool-" ++ "u1")
    ∧ "u1" ≠ Kind.account.tag ++ "u1"
    ∧ normalize "u1" .account = normalize (Kind.account.tag ++ "u1") .account :=
  ⟨by decide,
    (C20_prefixed_id_aliases wireKeeper
      (KVStore.empty.insert "acc-u1" (Wire.acc ⟨"bob", [⟨"BTC", "15"⟩]⟩)) "u1").1
      (by decide),
    by decide,
    (C20_prefixed_id_aliases wireKeeper
      (KVStore.empty.insert "acc-u1" (Wire.acc ⟨"bob", [⟨"BTC", "15"⟩]⟩)) "u1").2.1
      (by decide),
    by decide,
    (C20_prefixed_id_aliases wireKeeper
      (KVStore.empty.insert "acc-u1" (Wire.acc ⟨"bob", [⟨"BTC", "15"⟩]⟩)) "u1").2.2.1
      (by decide),
    ((C20_prefixed_id_aliases wireKeeper
      (KVStore.empty.insert "acc-u1" (Wire.acc ⟨"bob", [⟨"BTC", "15"⟩]⟩)) "u1").2.2.2
      .account (by decide)).1,
    ((C20_prefixed_id_aliases wireKeeper
      (KVStore.empty.insert "acc-u1" (Wire.acc ⟨"bob", [⟨"BTC", "15"⟩]⟩)) "u1").2.2.2
      .account (by decide)).2⟩


end SwapService
